import Mathlib

/-!
# VulkanSPIRV executable serialization

A shallow embedding of `VulkanSPIRVTargetBackend::serializeExecutable` and
`VulkanSPIRVTargetBackend::serializeExternalExecutable`
(`compiler/plugins/target/VulkanSPIRV/VulkanSPIRVTarget.cpp`), followed by
theorems about them.

Conventions of the embedding:

* IR operations are records of the queries the serializer makes on them.
* `SmallVector`s are lists; `v[i] = x` past the end and `DenseMap::at` on a
  missing key have no defined result and are reported as a `Fault`.
* A diagnostic followed by `return failure()` is `Stop.failure`.
* `dumpDataToPath` only writes files and returns nothing, so the two dump
  blocks leave no trace in the result.
* The FlatBuffer under construction is the sequence of top-level fields
  added to it, in the order of the `_add` calls.
-/

set_option autoImplicit false

namespace VulkanSPIRV

/-! ## Data model -/

/-- The file name and line of a file-backed location (`FileLineColLoc`, of
which only `getFilename()` and `getLine()` are read). -/
structure FileLineLoc where
  filename : String
  line : Nat
deriving DecidableEq, Repr

/-- Modelled from the spec: the location classes are not part of the source
file; the spec describes a location as a recursive sum of a file leaf, a
composite of locations, and an unknown location. -/
inductive Location where
  | file (filename : String) (line : Nat)
  | composite (locs : List Location)
  | unknown

mutual
/-- Modelled from the spec: `findFirstFileLoc` is declared outside the source
file; the spec describes it as a depth-first walk that returns the first
file-backed leaf, or nothing. -/
def findFirstFileLoc : Location → Option FileLineLoc
  | .file filename line => some ⟨filename, line⟩
  | .composite locs => findFirstFileLocIn locs
  | .unknown => none
/-- The walk of `findFirstFileLoc` over the children of a composite. -/
def findFirstFileLocIn : List Location → Option FileLineLoc
  | [] => none
  | loc :: locs =>
    match findFirstFileLoc loc with
    | some found => some found
    | none => findFirstFileLocIn locs
end

/-- An `IREE::HAL::ExecutableExportOp`: `getSymName()`, `getOrdinal()` (the
optional ordinal attribute, read as an unsigned 64-bit value) and
`getSourceLocsAttr()` (an optional dictionary from stage name to location). -/
structure ExecutableExportOp where
  symName : String
  ordinal : Option Nat
  sourceLocs : Option (List (String × Location))

/-- A `spirv::EntryPointABIAttr`, of which only `getSubgroupSize()` is read.
The value is a C `int`; it is stored in a `uint32_t` vector and written out
as `int32_t`, which gives back the same `int`. -/
structure EntryPointABIAttr where
  subgroupSize : Option Int
deriving DecidableEq, Repr

namespace spirv

/-- A `spirv::EntryPointOp`: `getFn()`, `getLoc()`, and `abi`, the
`spirv.entry_point_abi` attribute of the `spirv::FuncOp` that `getFn()` names
(`none` when the function carries no such attribute). The verifier of
`spirv.module` rejects an entry point whose function does not exist, so the
`lookupSymbol` of the source always finds the function. -/
structure EntryPointOp where
  fn : String
  loc : Location
  abi : Option EntryPointABIAttr

/-- A `spirv::ModuleOp`: its entry point ops in order, and `serialized`, what
`spirv::serialize` produces for it: `none` when it reports failure, otherwise
the 32-bit words of the binary. -/
structure ModuleOp where
  entryPoints : List EntryPointOp
  serialized : Option (List Nat)

end spirv

/-- The value of an entry of the variant's sources dictionary: a
`DenseResourceElementsAttr` with the bytes of its blob, or any other
attribute. -/
inductive SourceAttr where
  | denseResource (blobData : List Nat)
  | other
deriving DecidableEq, Repr

/-- An `IREE::HAL::ExecutableObjectAttr`; `data` is what `loadData()`
returns: the bytes of the object, or `none` when it cannot be loaded. -/
structure ExecutableObjectAttr where
  path : String
  data : Option (List Nat)
deriving DecidableEq, Repr

/-- An `IREE::HAL::ExecutableVariantOp`, through the queries made on it:
`getSymName()`, `getTarget().getFormat()`, `isExternal()`, `getObjects()`,
the export ops, the `spirv.module` ops of the inner module, and
`getSourcesAttr()`. -/
structure ExecutableVariantOp where
  symName : String
  format : String
  isExternal : Bool
  objects : Option (List ExecutableObjectAttr)
  exportOps : List ExecutableExportOp
  spirvModuleOps : List spirv.ModuleOp
  sources : Option (List (String × SourceAttr))

/-- The fields of `SerializationOptions` that the serializer reads. -/
structure SerializationOptions where
  debugLevel : Nat
  dumpIntermediatesPath : String
  dumpBinariesPath : String
  dumpBaseName : String
deriving DecidableEq, Repr

/-- One `iree_hal_spirv_StageLocationDef`: a stage name and a file location. -/
structure StageLocationDef where
  stage : String
  loc : FileLineLoc
deriving DecidableEq, Repr

/-- One `iree_hal_spirv_SourceFileDef`: a file name and its content. -/
structure SourceFileDef where
  path : String
  content : List Nat
deriving DecidableEq, Repr

/-- A top-level field of `iree_hal_spirv_ExecutableDef`. A slot of an offset
vector that was never written holds the null reference, modelled as `none`. -/
inductive ExecutableDefField where
  | entryPoints (names : List String)
  | subgroupSizes (sizes : List Int)
  | shaderModuleIndices (indices : List Nat)
  | shaderModules (modules : List (List Nat))
  | sourceLocations (locs : List (Option FileLineLoc))
  | stageLocations (locs : List (Option (List StageLocationDef)))
  | sourceFiles (files : List SourceFileDef)
deriving DecidableEq, Repr

/-- The container: the top-level fields in the order they were added. -/
abbrev ExecutableDef := List ExecutableDefField

/-- An `IREE::HAL::ExecutableBinaryOp` as created by the serializer. -/
structure ExecutableBinaryOp where
  symName : String
  format : String
  data : ExecutableDef
  mimeType : String
deriving DecidableEq, Repr

/-- The `executableBuilder`: the ops created through it so far, in order. -/
abbrev OpBuilder := List ExecutableBinaryOp

/-- `LogicalResult`; a failure carries the diagnostic emitted with it. -/
inductive LogicalResult where
  | success
  | failure (diag : String)
deriving DecidableEq, Repr

/-- An operation without a defined result. -/
inductive Fault where
  | missingKey (key : String)
  | indexOutOfRange (index size : Nat)
  | nullOrdinalAttr (symName : String)
deriving DecidableEq, Repr

/-- Why a step of the serializer did not run to its end. -/
inductive Stop where
  | failure (diag : String)
  | fault (f : Fault)
deriving DecidableEq, Repr

/-! ## Containers of the source -/

/-- `llvm::hasSingleElement`. -/
def hasSingleElement {α : Type} : List α → Bool
  | [_] => true
  | _ => false

/-- A `DenseMap<StringRef, uint64_t>`, as a list of bindings with distinct
keys. -/
abbrev DenseMap := List (String × Nat)

/-- The assignment `map[key] = value`: overwrite the binding of `key`, or add
one. -/
def DenseMap.assign : DenseMap → String → Nat → DenseMap
  | [], key, value => [(key, value)]
  | (k, v) :: rest, key, value =>
    if k = key then (k, value) :: rest else (k, v) :: DenseMap.assign rest key value

/-- The lookup behind `map.at(key)`; `none` when the key is missing. -/
def DenseMap.find : DenseMap → String → Option Nat
  | [], _ => none
  | (k, v) :: rest, key => if k = key then some v else DenseMap.find rest key

/-- The call `map.at(key)`. -/
def DenseMap.at (map : DenseMap) (key : String) : Except Stop Nat :=
  match map.find key with
  | some value => .ok value
  | none => .error (.fault (.missingKey key))

/-- The call `map.size()`. -/
def DenseMap.size (map : DenseMap) : Nat := map.length

/-- The call `vec.resize(n)`, new slots holding `dflt`. -/
def resize {α : Type} (vec : List α) (n : Nat) (dflt : α) : List α :=
  vec.take n ++ List.replicate (n - vec.length) dflt

/-- The assignment `vec[index] = value`. -/
def storeAt {α : Type} (vec : List α) (index : Nat) (value : α) : Except Stop (List α) :=
  if index < vec.length then .ok (vec.set index value)
  else .error (.fault (.indexOutOfRange index vec.length))

/-- The words seen through `reinterpret_cast<const uint32_t *>` over
`size / 4` words of a byte buffer (little-endian host). -/
def wordsOfBytes : List Nat → List Nat
  | b0 :: b1 :: b2 :: b3 :: rest =>
    (b0 + 256 * b1 + 65536 * b2 + 16777216 * b3) :: wordsOfBytes rest
  | _ => []

/-! ## serializeExecutable, generated path -/

/-- The loop over `exportOps` that fills `entryPointOrdinals` (lines 168-180):
an export op with an ordinal attribute is bound to it; one without is bound
to 0 when it is the only export op, and is an error otherwise. `exportOps` is
the whole list, `rest` what is left to visit. -/
def entryPointOrdinalsLoop (exportOps : List ExecutableExportOp) :
    List ExecutableExportOp → DenseMap → Except Stop DenseMap
  | [], entryPointOrdinals => .ok entryPointOrdinals
  | exportOp :: rest, entryPointOrdinals =>
    match exportOp.ordinal with
    | some ordinal =>
      entryPointOrdinalsLoop exportOps rest (entryPointOrdinals.assign exportOp.symName ordinal)
    | none =>
      if hasSingleElement exportOps then
        entryPointOrdinalsLoop exportOps rest (entryPointOrdinals.assign exportOp.symName 0)
      else .error (.failure "should have ordinal attribute")

/-- The map `entryPointOrdinals` of a variant after the loop (lines 164-180). -/
def entryPointOrdinals (variantOp : ExecutableVariantOp) : Except Stop DenseMap :=
  entryPointOrdinalsLoop variantOp.exportOps variantOp.exportOps []

/-- The embedded source files (lines 186-203): the sources are visited in
reverse, every dense resource gives a `SourceFileDef`, and the collected list
is reversed. -/
def sourceFileRefs (sources : Option (List (String × SourceAttr))) : List SourceFileDef :=
  match sources with
  | none => []
  | some sourcesAttr =>
    (sourcesAttr.reverse.filterMap fun sourceAttr =>
      match sourceAttr.2 with
      | .denseResource blobData => some ⟨sourceAttr.1, blobData⟩
      | .other => none).reverse

/-- The variables that the loop over the `spirv.module` ops updates. -/
structure ModuleLoopState where
  shaderModuleRefs : List (List Nat)
  entryPointNames : List String
  subgroupSizes : List Int
  shaderModuleIndices : List Nat
  sourceLocationRefs : List (Option FileLineLoc)
  hasAnySubgroupSizes : Bool
deriving DecidableEq, Repr

/-- The state before the first `spirv.module` op (lines 205-221). The index
of a shader module is `shaderModuleRefs.size()`, whose type is 32 bits wide
for a vector of references, so the store into the `uint32_t` vector keeps
it. -/
def ModuleLoopState.start (ordinalCount : Nat) : ModuleLoopState :=
  { shaderModuleRefs := []
    entryPointNames := resize [] ordinalCount ""
    subgroupSizes := resize [] ordinalCount 0
    shaderModuleIndices := resize [] ordinalCount 0
    sourceLocationRefs := []
    hasAnySubgroupSizes := false }

/-- The subgroup size request of an entry point (lines 261-269): the value to
store and whether it is a request. -/
def subgroupSizeOf (abi : Option EntryPointABIAttr) : Int × Bool :=
  match abi with
  | some attr =>
    match attr.subgroupSize with
    | some size => (size, true)
    | none => (0, false)
  | none => (0, false)

/-- The source location block (lines 272-281). -/
def recordSourceLocation (options : SerializationOptions) (ordinalCount ordinal : Nat)
    (loc : Location) (sourceLocationRefs : List (Option FileLineLoc)) :
    Except Stop (List (Option FileLineLoc)) :=
  if options.debugLevel ≥ 1 then
    match findFirstFileLoc loc with
    | some found => storeAt (resize sourceLocationRefs ordinalCount none) ordinal (some found)
    | none => .ok sourceLocationRefs
  else .ok sourceLocationRefs

/-- One iteration of the loop over the `spirv.module` ops (lines 222-282). -/
def encodeModule (options : SerializationOptions) (entryPointOrdinals : DenseMap)
    (ordinalCount : Nat) (s : ModuleLoopState) (spvModuleOp : spirv.ModuleOp) :
    Except Stop ModuleLoopState :=
  match spvModuleOp.entryPoints with
  | [spvEntryPoint] =>
    match DenseMap.at entryPointOrdinals spvEntryPoint.fn with
    | .error e => .error e
    | .ok ordinal =>
      match spvModuleOp.serialized with
      | none => .error (.failure "failed to serialize")
      | some spvBinary =>
        if spvBinary.isEmpty then .error (.failure "failed to serialize")
        else
          match storeAt s.shaderModuleIndices ordinal s.shaderModuleRefs.length with
          | .error e => .error e
          | .ok shaderModuleIndices =>
            match storeAt s.entryPointNames ordinal spvEntryPoint.fn with
            | .error e => .error e
            | .ok entryPointNames =>
              match storeAt s.subgroupSizes ordinal (subgroupSizeOf spvEntryPoint.abi).1 with
              | .error e => .error e
              | .ok subgroupSizes =>
                match recordSourceLocation options ordinalCount ordinal spvEntryPoint.loc
                    s.sourceLocationRefs with
                | .error e => .error e
                | .ok sourceLocationRefs =>
                  .ok { shaderModuleRefs := s.shaderModuleRefs ++ [spvBinary]
                        entryPointNames := entryPointNames
                        subgroupSizes := subgroupSizes
                        shaderModuleIndices := shaderModuleIndices
                        sourceLocationRefs := sourceLocationRefs
                        hasAnySubgroupSizes :=
                          s.hasAnySubgroupSizes || (subgroupSizeOf spvEntryPoint.abi).2 }
  | _ => .error (.failure "expected to contain exactly one entry point")

/-- The loop over the `spirv.module` ops (lines 222-282). -/
def spirvModuleOpsLoop (options : SerializationOptions) (entryPointOrdinals : DenseMap)
    (ordinalCount : Nat) : List spirv.ModuleOp → ModuleLoopState → Except Stop ModuleLoopState
  | [], s => .ok s
  | spvModuleOp :: rest, s =>
    match encodeModule options entryPointOrdinals ordinalCount s spvModuleOp with
    | .error e => .error e
    | .ok next => spirvModuleOpsLoop options entryPointOrdinals ordinalCount rest next

/-- The stage locations of one export op (lines 288-302): every entry of its
source locations whose location resolves to a file, in order. -/
def stageLocationRefs (sourceLocs : Option (List (String × Location))) : List StageLocationDef :=
  match sourceLocs with
  | none => []
  | some locsAttr =>
    locsAttr.filterMap fun locAttr =>
      match findFirstFileLoc locAttr.2 with
      | some found => some ⟨locAttr.1, found⟩
      | none => none

/-- The loop over `exportOps` that collects the stage locations (lines
287-311). The ordinal is read with `getOrdinalAttr().getInt()`, which has no
defined result on an export op without the attribute. -/
def stageLocationsLoop (ordinalCount : Nat) :
    List ExecutableExportOp → List (Option (List StageLocationDef)) →
    Except Stop (List (Option (List StageLocationDef)))
  | [], stageLocationsRefs => .ok stageLocationsRefs
  | exportOp :: rest, stageLocationsRefs =>
    if (stageLocationRefs exportOp.sourceLocs).isEmpty then
      stageLocationsLoop ordinalCount rest stageLocationsRefs
    else
      match exportOp.ordinal with
      | none => .error (.fault (.nullOrdinalAttr exportOp.symName))
      | some ordinal =>
        match storeAt (resize stageLocationsRefs ordinalCount none) ordinal
            (some (stageLocationRefs exportOp.sourceLocs)) with
        | .error e => .error e
        | .ok stored => stageLocationsLoop ordinalCount rest stored

/-- The optional stage locations (lines 284-312). -/
def stageLocations (options : SerializationOptions) (ordinalCount : Nat)
    (exportOps : List ExecutableExportOp) : Except Stop (List (Option (List StageLocationDef))) :=
  if options.debugLevel ≥ 3 then stageLocationsLoop ordinalCount exportOps []
  else .ok []

/-- The top-level fields in the order they are added (lines 314-345). The
reference `subgroupSizesRef` is non-null exactly when `hasAnySubgroupSizes`
holds: the flag is only set by an iteration of the module loop, after which
the vector of sizes is not empty. -/
def topLevelFields (s : ModuleLoopState)
    (stageLocationsRefs : List (Option (List StageLocationDef)))
    (sourceFiles : List SourceFileDef) : ExecutableDef :=
  [.entryPoints s.entryPointNames]
    ++ (if s.hasAnySubgroupSizes then [.subgroupSizes s.subgroupSizes] else [])
    ++ [.shaderModuleIndices s.shaderModuleIndices]
    ++ [.shaderModules s.shaderModuleRefs]
    ++ (if !s.sourceLocationRefs.isEmpty then [.sourceLocations s.sourceLocationRefs] else [])
    ++ (if !stageLocationsRefs.isEmpty then [.stageLocations stageLocationsRefs] else [])
    ++ (if !sourceFiles.isEmpty then [.sourceFiles sourceFiles] else [])

/-- The container built for a variant that is not external (lines 158-347). -/
def buildExecutableDef (options : SerializationOptions) (variantOp : ExecutableVariantOp) :
    Except Stop ExecutableDef :=
  if variantOp.spirvModuleOps.isEmpty then
    .error (.failure "should contain some spirv.module ops")
  else
    match entryPointOrdinals variantOp with
    | .error e => .error e
    | .ok ordinals =>
      match spirvModuleOpsLoop options ordinals (DenseMap.size ordinals)
          variantOp.spirvModuleOps (ModuleLoopState.start (DenseMap.size ordinals)) with
      | .error e => .error e
      | .ok s =>
        match stageLocations options (DenseMap.size ordinals) variantOp.exportOps with
        | .error e => .error e
        | .ok stageLocationsRefs =>
          .ok (topLevelFields s stageLocationsRefs (sourceFileRefs variantOp.sources))

/-! ## serializeExternalExecutable -/

/-- The container built for an external variant (lines 364-419): the names of
the export ops in order, one module index 0 per name, and the single shader
module. The three `_add` calls are recorded as three fields, also when the
variant has no export op and the two vectors are empty. -/
def buildExternalExecutableDef (variantOp : ExecutableVariantOp) : Except Stop ExecutableDef :=
  match variantOp.objects with
  | none => .error (.failure "no objects defined for external variant")
  | some objects =>
    if objects.length ≠ 1 then
      .error (.failure "only one object reference is supported for external variants")
    else
      match objects.head? with
      | none => .error (.failure "only one object reference is supported for external variants")
      | some objectAttr =>
        match objectAttr.data with
        | none => .error (.failure "object file could not be loaded")
        | some spvBinary =>
          if spvBinary.length % 4 ≠ 0 then
            .error (.failure "object file is not 4-byte aligned as expected for SPIR-V")
          else
            .ok [ .entryPoints (variantOp.exportOps.map fun exportOp => exportOp.symName),
                  .shaderModuleIndices (List.replicate variantOp.exportOps.length 0),
                  .shaderModules [wordsOfBytes spvBinary] ]

/-- What a call leaves behind: a `Stop.failure` is returned as a failure with
the builder untouched, a container is wrapped in an `ExecutableBinaryOp`
created through the builder (lines 349-357 and 421-429), and a fault has no
defined result. -/
def finish (variantOp : ExecutableVariantOp) (executableBuilder : OpBuilder) :
    Except Stop ExecutableDef → Except Fault (LogicalResult × OpBuilder)
  | .error (.fault f) => .error f
  | .error (.failure diag) => .ok (.failure diag, executableBuilder)
  | .ok data =>
    .ok (.success, executableBuilder ++
      [{ symName := variantOp.symName
         format := variantOp.format
         data := data
         mimeType := "application/x-flatbuffers" }])

/-- The method `serializeExternalExecutable` (lines 360-430). -/
def serializeExternalExecutable (_options : SerializationOptions)
    (variantOp : ExecutableVariantOp) (executableBuilder : OpBuilder) :
    Except Fault (LogicalResult × OpBuilder) :=
  finish variantOp executableBuilder (buildExternalExecutableDef variantOp)

/-- The method `serializeExecutable` (lines 148-358). -/
def serializeExecutable (options : SerializationOptions) (variantOp : ExecutableVariantOp)
    (executableBuilder : OpBuilder) : Except Fault (LogicalResult × OpBuilder) :=
  if variantOp.isExternal then
    serializeExternalExecutable options variantOp executableBuilder
  else
    finish variantOp executableBuilder (buildExecutableDef options variantOp)

/-! ## Reading a container -/

/-- The entry point names of a container, if the field was added. -/
def entryPointsOf : ExecutableDef → Option (List String)
  | [] => none
  | .entryPoints names :: _ => some names
  | _ :: rest => entryPointsOf rest

/-- The subgroup sizes of a container, if the field was added. -/
def subgroupSizesOf : ExecutableDef → Option (List Int)
  | [] => none
  | .subgroupSizes sizes :: _ => some sizes
  | _ :: rest => subgroupSizesOf rest

/-- The shader module indices of a container, if the field was added. -/
def shaderModuleIndicesOf : ExecutableDef → Option (List Nat)
  | [] => none
  | .shaderModuleIndices indices :: _ => some indices
  | _ :: rest => shaderModuleIndicesOf rest

/-- The shader modules of a container, if the field was added. -/
def shaderModulesOf : ExecutableDef → Option (List (List Nat))
  | [] => none
  | .shaderModules modules :: _ => some modules
  | _ :: rest => shaderModulesOf rest

/-- The source locations of a container, if the field was added. -/
def sourceLocationsOf : ExecutableDef → Option (List (Option FileLineLoc))
  | [] => none
  | .sourceLocations locs :: _ => some locs
  | _ :: rest => sourceLocationsOf rest

/-- The stage locations of a container, if the field was added. -/
def stageLocationsOf : ExecutableDef → Option (List (Option (List StageLocationDef)))
  | [] => none
  | .stageLocations locs :: _ => some locs
  | _ :: rest => stageLocationsOf rest

/-- The source files of a container, if the field was added. -/
def sourceFilesOf : ExecutableDef → Option (List SourceFileDef)
  | [] => none
  | .sourceFiles files :: _ => some files
  | _ :: rest => sourceFilesOf rest

/-- The names of the top-level fields of `iree_hal_spirv_ExecutableDef`. -/
inductive FieldName where
  | entryPoints
  | subgroupSizes
  | shaderModuleIndices
  | shaderModules
  | sourceLocations
  | stageLocations
  | sourceFiles
deriving DecidableEq, Repr

/-- The name of a top-level field. -/
def ExecutableDefField.name : ExecutableDefField → FieldName
  | .entryPoints _ => .entryPoints
  | .subgroupSizes _ => .subgroupSizes
  | .shaderModuleIndices _ => .shaderModuleIndices
  | .shaderModules _ => .shaderModules
  | .sourceLocations _ => .sourceLocations
  | .stageLocations _ => .stageLocations
  | .sourceFiles _ => .sourceFiles

/-- The order of the fields that the spec gives for the container: entry
point names, subgroup sizes, module indices, shader modules, source
locations, stage locations, source files. -/
def contractOrder : List FieldName :=
  [.entryPoints, .subgroupSizes, .shaderModuleIndices, .shaderModules, .sourceLocations,
   .stageLocations, .sourceFiles]

/-- The source files as the spec words them: the embedded source attachments
of the variant that are resource blobs, each as its file name with its raw
bytes, in the order of the attachments. To be compared with
`sourceFileRefs`, which follows the code. -/
def embeddedSourceFiles (sources : Option (List (String × SourceAttr))) : List SourceFileDef :=
  match sources with
  | none => []
  | some attachments =>
    attachments.filterMap fun attachment =>
      match attachment.2 with
      | .denseResource blobData => some ⟨attachment.1, blobData⟩
      | .other => none

/-- The value of the local `ordinal` when an export op is bound in the
ordinal loop (lines 169-179): the ordinal attribute, or 0 without one. -/
def resolvedOrdinal (exportOp : ExecutableExportOp) : Nat :=
  match exportOp.ordinal with
  | some ordinal => ordinal
  | none => 0

/-- The content of a slot of an offset vector: `none` for a null reference,
and for a slot past the end of the vector. -/
def slotOf {α : Type} (refs : List (Option α)) (slot : Nat) : Option α :=
  Option.join (refs[slot]?)

/-! ## Predicates on variants -/

/-- The entry points of the modules have pairwise distinct ordinals: no two
modules (at different positions) have entry points whose names the map binds
to the same ordinal. -/
def DistinctOrdinals (ordinals : DenseMap) (modules : List spirv.ModuleOp) : Prop :=
  modules.Pairwise fun m m' =>
    ∀ e ∈ m.entryPoints, ∀ e' ∈ m'.entryPoints, ordinals.find e.fn ≠ ordinals.find e'.fn

instance (ordinals : DenseMap) (modules : List spirv.ModuleOp) :
    Decidable (DistinctOrdinals ordinals modules) := by
  unfold DistinctOrdinals
  infer_instance

/-- The entry point declares a subgroup size: its function has the ABI
attribute and the attribute has a subgroup size. -/
def DeclaresSubgroupSize (e : spirv.EntryPointOp) (size : Int) : Prop :=
  ∃ abi, e.abi = some abi ∧ abi.subgroupSize = some size

/-! ## Example inputs -/

/-- A variant with two entry points, the second without an ordinal. -/
def twoEntriesOneWithoutOrdinal : ExecutableVariantOp :=
  { symName := "variant"
    format := "vulkan-spirv-fb"
    isExternal := false
    objects := none
    exportOps := [⟨"a", some 0, none⟩, ⟨"b", none, none⟩]
    spirvModuleOps := [⟨[⟨"a", .unknown, none⟩], some [119734787]⟩]
    sources := none }

/-- A variant with one entry point that has no ordinal, and its module. -/
def singleEntryWithoutOrdinal : ExecutableVariantOp :=
  { symName := "variant"
    format := "vulkan-spirv-fb"
    isExternal := false
    objects := none
    exportOps := [⟨"main", none, some [("codegen", .file "main.mlir" 12)]⟩]
    spirvModuleOps := [⟨[⟨"main", .file "main.mlir" 12, none⟩], some [119734787, 65536]⟩]
    sources := none }

/-- An external variant with three entry points and an object of 8 bytes. -/
def externalThreeEntries : ExecutableVariantOp :=
  { symName := "variant"
    format := "vulkan-spirv-fb"
    isExternal := true
    objects := some [⟨"kernels.spv", some [3, 2, 35, 7, 0, 0, 1, 0]⟩]
    exportOps := [⟨"add", some 0, none⟩, ⟨"mul", some 1, none⟩, ⟨"sub", some 2, none⟩]
    spirvModuleOps := []
    sources := none }

/-- A variant whose first module names an entry that is not exported and
whose second module has no entry point. -/
def unexportedEntryThenNoEntryPoint : ExecutableVariantOp :=
  { symName := "variant"
    format := "vulkan-spirv-fb"
    isExternal := false
    objects := none
    exportOps := [⟨"a", none, none⟩]
    spirvModuleOps := [⟨[⟨"b", .unknown, none⟩], some [119734787]⟩, ⟨[], some [119734787]⟩]
    sources := none }

/-- A variant whose first module is in order and whose second module has two
entry points. -/
def moduleWithTwoEntryPoints : ExecutableVariantOp :=
  { symName := "variant"
    format := "vulkan-spirv-fb"
    isExternal := false
    objects := none
    exportOps := [⟨"a", some 0, none⟩, ⟨"b", some 1, none⟩, ⟨"c", some 2, none⟩]
    spirvModuleOps :=
      [⟨[⟨"a", .unknown, none⟩], some [119734787]⟩,
       ⟨[⟨"b", .unknown, none⟩, ⟨"c", .unknown, none⟩], some [119734787]⟩]
    sources := none }

/-- A variant with two entry points: `a` at ordinal 1 asks for subgroup size
64 and has file locations, `b` at ordinal 0 has neither. -/
def twoEntries : ExecutableVariantOp :=
  { symName := "variant"
    format := "vulkan-spirv-fb"
    isExternal := false
    objects := none
    exportOps :=
      [⟨"a", some 1, some [("input", .file "model.mlir" 4), ("opaque", .unknown),
          ("codegen", .composite [.unknown, .file "a.mlir" 9])]⟩,
       ⟨"b", some 0, some [("opaque", .unknown)]⟩]
    spirvModuleOps :=
      [⟨[⟨"a", .composite [.unknown, .file "a.mlir" 9], some ⟨some 64⟩⟩], some [119734787, 1]⟩,
       ⟨[⟨"b", .unknown, some ⟨none⟩⟩], some [119734787, 2]⟩]
    sources := some [("a.mlir", .denseResource [97]), ("note", .other)] }

/-- Options with debug level 0 and no dump paths. -/
def debugLevel0 : SerializationOptions := ⟨0, "", "", ""⟩

/-- Options with debug level 3 and no dump paths. -/
def debugLevel3 : SerializationOptions := ⟨3, "", "", ""⟩

/-- The binary op created for `twoEntries` at debug level 0. -/
def twoEntriesBinaryOp0 : ExecutableBinaryOp :=
  { symName := "variant"
    format := "vulkan-spirv-fb"
    data :=
      [.entryPoints ["b", "a"],
       .subgroupSizes [0, 64],
       .shaderModuleIndices [1, 0],
       .shaderModules [[119734787, 1], [119734787, 2]],
       .sourceFiles [⟨"a.mlir", [97]⟩]]
    mimeType := "application/x-flatbuffers" }

/-- The binary op created for `twoEntries` at debug level 3. -/
def twoEntriesBinaryOp3 : ExecutableBinaryOp :=
  { symName := "variant"
    format := "vulkan-spirv-fb"
    data :=
      [.entryPoints ["b", "a"],
       .subgroupSizes [0, 64],
       .shaderModuleIndices [1, 0],
       .shaderModules [[119734787, 1], [119734787, 2]],
       .sourceLocations [none, some ⟨"a.mlir", 9⟩],
       .stageLocations [none, some [⟨"input", ⟨"model.mlir", 4⟩⟩, ⟨"codegen", ⟨"a.mlir", 9⟩⟩]],
       .sourceFiles [⟨"a.mlir", [97]⟩]]
    mimeType := "application/x-flatbuffers" }

/-- A variant in which two entry points carry the ordinal 0. -/
def duplicateOrdinals : ExecutableVariantOp :=
  { symName := "variant"
    format := "vulkan-spirv-fb"
    isExternal := false
    objects := none
    exportOps := [⟨"a", some 0, none⟩, ⟨"b", some 0, none⟩]
    spirvModuleOps :=
      [⟨[⟨"a", .unknown, none⟩], some [119734787, 1]⟩,
       ⟨[⟨"b", .unknown, none⟩], some [119734787, 2]⟩]
    sources := none }

/-- The binary op created for `duplicateOrdinals`. -/
def duplicateOrdinalsBinaryOp : ExecutableBinaryOp :=
  { symName := "variant"
    format := "vulkan-spirv-fb"
    data :=
      [.entryPoints ["b", ""],
       .shaderModuleIndices [1, 0],
       .shaderModules [[119734787, 1], [119734787, 2]]]
    mimeType := "application/x-flatbuffers" }

/-- A variant with two exported entry points and a module for the first
only. -/
def exportWithoutModule : ExecutableVariantOp :=
  { symName := "variant"
    format := "vulkan-spirv-fb"
    isExternal := false
    objects := none
    exportOps := [⟨"a", some 0, none⟩, ⟨"b", some 1, none⟩]
    spirvModuleOps := [⟨[⟨"a", .unknown, none⟩], some [119734787, 1]⟩]
    sources := none }

/-- The binary op created for `exportWithoutModule`. -/
def exportWithoutModuleBinaryOp : ExecutableBinaryOp :=
  { symName := "variant"
    format := "vulkan-spirv-fb"
    data :=
      [.entryPoints ["a", ""],
       .shaderModuleIndices [0, 0],
       .shaderModules [[119734787, 1]]]
    mimeType := "application/x-flatbuffers" }

/-- An external variant whose entry points carry the ordinals 1 and 0, in
that order. -/
def externalOutOfOrder : ExecutableVariantOp :=
  { symName := "variant"
    format := "vulkan-spirv-fb"
    isExternal := true
    objects := some [⟨"kernels.spv", some [3, 2, 35, 7]⟩]
    exportOps := [⟨"a", some 1, none⟩, ⟨"b", some 0, none⟩]
    spirvModuleOps := []
    sources := none }

/-- The binary op created for `externalThreeEntries`. -/
def externalThreeEntriesBinaryOp : ExecutableBinaryOp :=
  { symName := "variant"
    format := "vulkan-spirv-fb"
    data :=
      [.entryPoints ["add", "mul", "sub"],
       .shaderModuleIndices [0, 0, 0],
       .shaderModules [[119734787, 65536]]]
    mimeType := "application/x-flatbuffers" }

/-- A variant whose single entry point declares the subgroup size 0. -/
def zeroSubgroupSize : ExecutableVariantOp :=
  { symName := "variant"
    format := "vulkan-spirv-fb"
    isExternal := false
    objects := none
    exportOps := [⟨"main", some 0, none⟩]
    spirvModuleOps := [⟨[⟨"main", .unknown, some ⟨some 0⟩⟩], some [119734787, 1]⟩]
    sources := none }

/-- A variant whose single entry point carries the ordinal 5. -/
def sparseOrdinal : ExecutableVariantOp :=
  { symName := "variant"
    format := "vulkan-spirv-fb"
    isExternal := false
    objects := none
    exportOps := [⟨"a", some 5, none⟩]
    spirvModuleOps := [⟨[⟨"a", .unknown, none⟩], some [119734787, 1]⟩]
    sources := none }

/-- A variant whose entry points declare the subgroup sizes 64 and 0. -/
def mixedSubgroupSizes : ExecutableVariantOp :=
  { symName := "variant"
    format := "vulkan-spirv-fb"
    isExternal := false
    objects := none
    exportOps := [⟨"a", some 0, none⟩, ⟨"b", some 1, none⟩]
    spirvModuleOps :=
      [⟨[⟨"a", .unknown, some ⟨some 64⟩⟩], some [119734787, 1]⟩,
       ⟨[⟨"b", .unknown, some ⟨some 0⟩⟩], some [119734787, 2]⟩]
    sources := none }

/-- The binary op created for `mixedSubgroupSizes`. -/
def mixedSubgroupSizesBinaryOp : ExecutableBinaryOp :=
  { symName := "variant"
    format := "vulkan-spirv-fb"
    data :=
      [.entryPoints ["a", "b"],
       .subgroupSizes [64, 0],
       .shaderModuleIndices [0, 1],
       .shaderModules [[119734787, 1], [119734787, 2]]]
    mimeType := "application/x-flatbuffers" }

/-- A variant whose entry points share the ordinal 0; the first declares the
subgroup size 64, the second declares none. -/
def overwrittenSubgroupSize : ExecutableVariantOp :=
  { symName := "variant"
    format := "vulkan-spirv-fb"
    isExternal := false
    objects := none
    exportOps := [⟨"a", some 0, none⟩, ⟨"b", some 0, none⟩]
    spirvModuleOps :=
      [⟨[⟨"a", .unknown, some ⟨some 64⟩⟩], some [119734787, 1]⟩,
       ⟨[⟨"b", .unknown, none⟩], some [119734787, 2]⟩]
    sources := none }

/-! # Theorems -/

/-! ## The ordinal loop -/

theorem hasSingleElement_eq_false_of_length {α : Type} (l : List α) (h : 1 < l.length) :
    hasSingleElement l = false := by
  match l, h with
  | _ :: _ :: _, _ => rfl

theorem entryPointOrdinalsLoop_missing (exportOps : List ExecutableExportOp)
    (hmany : hasSingleElement exportOps = false) (rest : List ExecutableExportOp)
    (hmissing : ∃ e ∈ rest, e.ordinal = none) (ordinals : DenseMap) :
    entryPointOrdinalsLoop exportOps rest ordinals
      = .error (.failure "should have ordinal attribute") := by
  induction rest generalizing ordinals with
  | nil => simp at hmissing
  | cons exportOp rest ih =>
    cases hord : exportOp.ordinal with
    | none => simp [entryPointOrdinalsLoop, hord, hmany]
    | some ordinal =>
      simp only [entryPointOrdinalsLoop, hord]
      apply ih
      obtain ⟨e, he, hnone⟩ := hmissing
      rcases List.mem_cons.mp he with rfl | he
      · rw [hord] at hnone; cases hnone
      · exact ⟨e, he, hnone⟩

/-- C1: a variant that is not external, has at least one shader module and
more than one entry point, one of which has no explicit ordinal, makes
`serializeExecutable` return failure (with the diagnostic "should have
ordinal attribute") and leaves the builder as it was: no artifact is
created. -/
theorem serializeExecutable_missing_ordinal (options : SerializationOptions)
    (variantOp : ExecutableVariantOp) (executableBuilder : OpBuilder)
    (hext : variantOp.isExternal = false)
    (hmods : variantOp.spirvModuleOps ≠ [])
    (hmany : 1 < variantOp.exportOps.length)
    (hmissing : ∃ e ∈ variantOp.exportOps, e.ordinal = none) :
    serializeExecutable options variantOp executableBuilder
      = .ok (.failure "should have ordinal attribute", executableBuilder) := by
  have hloop : entryPointOrdinals variantOp
      = .error (.failure "should have ordinal attribute") :=
    entryPointOrdinalsLoop_missing _
      (hasSingleElement_eq_false_of_length _ hmany) _ hmissing []
  have hne : variantOp.spirvModuleOps.isEmpty = false := by
    cases hm : variantOp.spirvModuleOps with
    | nil => exact absurd hm hmods
    | cons _ _ => rfl
  simp [serializeExecutable, hext, buildExecutableDef, hne, hloop, finish]

/-- The missing ordinal failure on `twoEntriesOneWithoutOrdinal`. -/
theorem serializeExecutable_missing_ordinal_witness :
    serializeExecutable ⟨0, "", "", ""⟩ twoEntriesOneWithoutOrdinal []
      = .ok (.failure "should have ordinal attribute", []) :=
  serializeExecutable_missing_ordinal ⟨0, "", "", ""⟩ twoEntriesOneWithoutOrdinal []
    rfl (by simp [twoEntriesOneWithoutOrdinal]) (by simp [twoEntriesOneWithoutOrdinal])
    ⟨⟨"b", none, none⟩, by simp [twoEntriesOneWithoutOrdinal], rfl⟩

/-! ## Reading the fields of a container -/

@[simp] theorem entryPointsOf_topLevelFields (s : ModuleLoopState)
    (stage : List (Option (List StageLocationDef))) (files : List SourceFileDef) :
    entryPointsOf (topLevelFields s stage files) = some s.entryPointNames := by
  simp [topLevelFields, entryPointsOf]

@[simp] theorem subgroupSizesOf_topLevelFields (s : ModuleLoopState)
    (stage : List (Option (List StageLocationDef))) (files : List SourceFileDef) :
    subgroupSizesOf (topLevelFields s stage files)
      = if s.hasAnySubgroupSizes then some s.subgroupSizes else none := by
  unfold topLevelFields
  split_ifs <;> simp_all [subgroupSizesOf]

@[simp] theorem shaderModuleIndicesOf_topLevelFields (s : ModuleLoopState)
    (stage : List (Option (List StageLocationDef))) (files : List SourceFileDef) :
    shaderModuleIndicesOf (topLevelFields s stage files) = some s.shaderModuleIndices := by
  unfold topLevelFields
  split_ifs <;> simp_all [shaderModuleIndicesOf]

@[simp] theorem shaderModulesOf_topLevelFields (s : ModuleLoopState)
    (stage : List (Option (List StageLocationDef))) (files : List SourceFileDef) :
    shaderModulesOf (topLevelFields s stage files) = some s.shaderModuleRefs := by
  unfold topLevelFields
  split_ifs <;> simp_all [shaderModulesOf]

@[simp] theorem sourceLocationsOf_topLevelFields (s : ModuleLoopState)
    (stage : List (Option (List StageLocationDef))) (files : List SourceFileDef) :
    sourceLocationsOf (topLevelFields s stage files)
      = if s.sourceLocationRefs = [] then none else some s.sourceLocationRefs := by
  unfold topLevelFields
  split_ifs <;> simp_all [sourceLocationsOf]

@[simp] theorem stageLocationsOf_topLevelFields (s : ModuleLoopState)
    (stage : List (Option (List StageLocationDef))) (files : List SourceFileDef) :
    stageLocationsOf (topLevelFields s stage files)
      = if stage = [] then none else some stage := by
  unfold topLevelFields
  split_ifs <;> simp_all [stageLocationsOf]

/-! ## The result of a call -/

theorem finish_success {variantOp : ExecutableVariantOp} {executableBuilder after : OpBuilder}
    {built : Except Stop ExecutableDef}
    (h : finish variantOp executableBuilder built = .ok (.success, after)) :
    ∃ data, built = .ok data ∧
      after = executableBuilder ++
        [⟨variantOp.symName, variantOp.format, data, "application/x-flatbuffers"⟩] := by
  match built, h with
  | .ok data, h =>
    simp only [finish, Except.ok.injEq, Prod.mk.injEq, true_and] at h
    exact ⟨data, rfl, h.symm⟩
  | .error (.failure _), h => simp [finish] at h
  | .error (.fault _), h => simp [finish] at h

/-! ## A single entry point without an ordinal -/

/-- C2: a variant that is not external, with exactly one entry point that
has no explicit ordinal and exactly one shader module whose single entry
point is that entry, the backend giving a non-empty blob, serialized at debug
level 0: `serializeExecutable` succeeds, creates one binary op, and the entry
is at ordinal 0: the entry point names are `[name]` and the module indices
are `[0]`. -/
theorem serializeExecutable_single_entry_no_ordinal (options : SerializationOptions)
    (variantOp : ExecutableVariantOp) (executableBuilder : OpBuilder)
    (exportOp : ExecutableExportOp) (spvModuleOp : spirv.ModuleOp)
    (spvEntryPoint : spirv.EntryPointOp) (spvBinary : List Nat)
    (hext : variantOp.isExternal = false)
    (hexports : variantOp.exportOps = [exportOp])
    (hordinal : exportOp.ordinal = none)
    (hmodules : variantOp.spirvModuleOps = [spvModuleOp])
    (hentry : spvModuleOp.entryPoints = [spvEntryPoint])
    (hfn : spvEntryPoint.fn = exportOp.symName)
    (hserialized : spvModuleOp.serialized = some spvBinary)
    (hnonempty : spvBinary ≠ [])
    (hdebug : options.debugLevel = 0) :
    ∃ data,
      serializeExecutable options variantOp executableBuilder
        = .ok (.success, executableBuilder ++
            [⟨variantOp.symName, variantOp.format, data, "application/x-flatbuffers"⟩]) ∧
      entryPointsOf data = some [exportOp.symName] ∧
      shaderModuleIndicesOf data = some [0] := by
  have hords : entryPointOrdinals variantOp = .ok [(exportOp.symName, 0)] := by
    simp [entryPointOrdinals, hexports, entryPointOrdinalsLoop, hordinal, hasSingleElement,
      DenseMap.assign]
  have hbin : spvBinary.isEmpty = false := by
    cases spvBinary with
    | nil => exact absurd rfl hnonempty
    | cons _ _ => rfl
  have hloop : spirvModuleOpsLoop options [(exportOp.symName, 0)] 1 [spvModuleOp]
      (ModuleLoopState.start 1)
      = .ok { shaderModuleRefs := [spvBinary]
              entryPointNames := [exportOp.symName]
              subgroupSizes := [(subgroupSizeOf spvEntryPoint.abi).1]
              shaderModuleIndices := [0]
              sourceLocationRefs := []
              hasAnySubgroupSizes := (subgroupSizeOf spvEntryPoint.abi).2 } := by
    simp [spirvModuleOpsLoop, encodeModule, hentry, hfn, DenseMap.at, DenseMap.find,
      hserialized, hbin, ModuleLoopState.start, resize, storeAt, recordSourceLocation, hdebug]
  refine ⟨topLevelFields
    { shaderModuleRefs := [spvBinary]
      entryPointNames := [exportOp.symName]
      subgroupSizes := [(subgroupSizeOf spvEntryPoint.abi).1]
      shaderModuleIndices := [0]
      sourceLocationRefs := []
      hasAnySubgroupSizes := (subgroupSizeOf spvEntryPoint.abi).2 }
    [] (sourceFileRefs variantOp.sources), ?_, ?_, ?_⟩
  · simp [serializeExecutable, hext, buildExecutableDef, hmodules, hords, DenseMap.size,
      hloop, stageLocations, hdebug, finish]
  · simp
  · simp

/-- The single entry of `singleEntryWithoutOrdinal` is placed at ordinal 0. -/
theorem serializeExecutable_single_entry_no_ordinal_witness :
    ∃ data,
      serializeExecutable ⟨0, "", "", ""⟩ singleEntryWithoutOrdinal []
        = .ok (.success, [] ++ [⟨singleEntryWithoutOrdinal.symName,
            singleEntryWithoutOrdinal.format, data, "application/x-flatbuffers"⟩]) ∧
      entryPointsOf data = some ["main"] ∧
      shaderModuleIndicesOf data = some [0] :=
  serializeExecutable_single_entry_no_ordinal ⟨0, "", "", ""⟩ singleEntryWithoutOrdinal []
    ⟨"main", none, some [("codegen", .file "main.mlir" 12)]⟩
    ⟨[⟨"main", .file "main.mlir" 12, none⟩], some [119734787, 65536]⟩
    ⟨"main", .file "main.mlir" 12, none⟩ [119734787, 65536]
    rfl rfl rfl rfl rfl rfl rfl (by simp) rfl

/-! ## External variants -/

theorem length_wordsOfBytes : ∀ bytes : List Nat,
    (wordsOfBytes bytes).length = bytes.length / 4
  | [] => by simp [wordsOfBytes]
  | [_] => by simp [wordsOfBytes]
  | [_, _] => by simp [wordsOfBytes]
  | [_, _, _] => by simp [wordsOfBytes]
  | _ :: _ :: _ :: _ :: rest => by
    simp only [wordsOfBytes, List.length_cons, length_wordsOfBytes rest]
    omega

theorem buildExternalExecutableDef_ok (variantOp : ExecutableVariantOp)
    (objectAttr : ExecutableObjectAttr) (spvBinary : List Nat)
    (hobjects : variantOp.objects = some [objectAttr])
    (hdata : objectAttr.data = some spvBinary)
    (haligned : spvBinary.length % 4 = 0) :
    buildExternalExecutableDef variantOp
      = .ok [ .entryPoints (variantOp.exportOps.map fun exportOp => exportOp.symName),
              .shaderModuleIndices (List.replicate variantOp.exportOps.length 0),
              .shaderModules [wordsOfBytes spvBinary] ] := by
  simp [buildExternalExecutableDef, hobjects, hdata, haligned]

theorem buildExternalExecutableDef_failure (variantOp : ExecutableVariantOp)
    (h : ¬ ∃ objectAttr spvBinary, variantOp.objects = some [objectAttr] ∧
      objectAttr.data = some spvBinary ∧ spvBinary.length % 4 = 0) :
    ∃ diag, buildExternalExecutableDef variantOp = .error (.failure diag) := by
  unfold buildExternalExecutableDef
  cases hobjects : variantOp.objects with
  | none => exact ⟨_, rfl⟩
  | some objects =>
    match objects, hobjects with
    | [], _ => exact ⟨_, rfl⟩
    | _ :: _ :: _, _ =>
      exact ⟨"only one object reference is supported for external variants", by simp⟩
    | [objectAttr], hobjects =>
      cases hdata : objectAttr.data with
      | none => exact ⟨"object file could not be loaded", by simp [hdata]⟩
      | some spvBinary =>
        by_cases haligned : spvBinary.length % 4 = 0
        · exact absurd ⟨objectAttr, spvBinary, hobjects, hdata, haligned⟩ h
        · exact ⟨"object file is not 4-byte aligned as expected for SPIR-V",
            by simp [hdata, haligned]⟩

/-- C4: `serializeExternalExecutable` succeeds if and only if the variant
carries exactly one object reference, the data of that object loads, and the
number of loaded bytes is a multiple of 4. In that case it creates one binary
op; in every other case (no objects attribute, zero or several references, a
load failure, a length that is not a multiple of 4) it returns failure and
leaves the builder as it was. -/
theorem serializeExternalExecutable_success_iff (options : SerializationOptions)
    (variantOp : ExecutableVariantOp) (executableBuilder : OpBuilder) :
    ((∃ after, serializeExternalExecutable options variantOp executableBuilder
          = .ok (.success, after)) ↔
      ∃ objectAttr spvBinary, variantOp.objects = some [objectAttr] ∧
        objectAttr.data = some spvBinary ∧ spvBinary.length % 4 = 0) ∧
    ((∃ data, serializeExternalExecutable options variantOp executableBuilder
          = .ok (.success, executableBuilder ++
              [⟨variantOp.symName, variantOp.format, data, "application/x-flatbuffers"⟩])) ∨
      ((¬ ∃ objectAttr spvBinary, variantOp.objects = some [objectAttr] ∧
          objectAttr.data = some spvBinary ∧ spvBinary.length % 4 = 0) ∧
        ∃ diag, serializeExternalExecutable options variantOp executableBuilder
          = .ok (.failure diag, executableBuilder))) := by
  by_cases h : ∃ objectAttr spvBinary, variantOp.objects = some [objectAttr] ∧
      objectAttr.data = some spvBinary ∧ spvBinary.length % 4 = 0
  · obtain ⟨objectAttr, spvBinary, hobjects, hdata, haligned⟩ := h
    have hok := buildExternalExecutableDef_ok variantOp objectAttr spvBinary hobjects hdata
      haligned
    have hrun : serializeExternalExecutable options variantOp executableBuilder
        = .ok (.success, executableBuilder ++ [⟨variantOp.symName, variantOp.format,
            [ .entryPoints (variantOp.exportOps.map fun exportOp => exportOp.symName),
              .shaderModuleIndices (List.replicate variantOp.exportOps.length 0),
              .shaderModules [wordsOfBytes spvBinary] ],
            "application/x-flatbuffers"⟩]) := by
      simp [serializeExternalExecutable, hok, finish]
    exact ⟨⟨fun _ => ⟨objectAttr, spvBinary, hobjects, hdata, haligned⟩, fun _ => ⟨_, hrun⟩⟩,
      Or.inl ⟨_, hrun⟩⟩
  · obtain ⟨diag, hdiag⟩ := buildExternalExecutableDef_failure variantOp h
    have hrun : serializeExternalExecutable options variantOp executableBuilder
        = .ok (.failure diag, executableBuilder) := by
      simp [serializeExternalExecutable, hdiag, finish]
    refine ⟨⟨fun hsucc => ?_, fun hcond => absurd hcond h⟩, Or.inr ⟨h, diag, hrun⟩⟩
    obtain ⟨after, hafter⟩ := hsucc
    rw [hrun] at hafter
    simp at hafter

/-- C5: for an external variant with exactly one object whose data loads as
`4 * w` bytes, and entry points named in the order of the variant, the
container that `serializeExternalExecutable` produces has the names in that
same order, one module index 0 per entry point, exactly one shader module of
`w` words, and no subgroup size, source location, stage location or source
file field. -/
theorem serializeExternalExecutable_container (options : SerializationOptions)
    (variantOp : ExecutableVariantOp) (executableBuilder : OpBuilder)
    (objectAttr : ExecutableObjectAttr) (spvBinary : List Nat) (w : Nat)
    (hobjects : variantOp.objects = some [objectAttr])
    (hdata : objectAttr.data = some spvBinary)
    (hlength : spvBinary.length = 4 * w) :
    ∃ data words,
      serializeExternalExecutable options variantOp executableBuilder
        = .ok (.success, executableBuilder ++
            [⟨variantOp.symName, variantOp.format, data, "application/x-flatbuffers"⟩]) ∧
      entryPointsOf data = some (variantOp.exportOps.map fun exportOp => exportOp.symName) ∧
      shaderModuleIndicesOf data = some (List.replicate variantOp.exportOps.length 0) ∧
      shaderModulesOf data = some [words] ∧ words.length = w ∧
      subgroupSizesOf data = none ∧ sourceLocationsOf data = none ∧
      stageLocationsOf data = none ∧ sourceFilesOf data = none := by
  have haligned : spvBinary.length % 4 = 0 := by omega
  have hok := buildExternalExecutableDef_ok variantOp objectAttr spvBinary hobjects hdata
    haligned
  refine ⟨[ .entryPoints
        (variantOp.exportOps.map fun (exportOp : ExecutableExportOp) => exportOp.symName),
      .shaderModuleIndices (List.replicate variantOp.exportOps.length 0),
      .shaderModules [wordsOfBytes spvBinary] ],
    wordsOfBytes spvBinary, ?_, rfl, rfl, rfl, ?_, rfl, rfl, rfl, rfl⟩
  · simp [serializeExternalExecutable, hok, finish]
  · rw [length_wordsOfBytes]; omega

/-- The container of `externalThreeEntries`: three names, three zero
indices, one shader module of two words. -/
theorem serializeExternalExecutable_container_witness :
    ∃ data words,
      serializeExternalExecutable ⟨0, "", "", ""⟩ externalThreeEntries []
        = .ok (.success, [] ++ [⟨externalThreeEntries.symName, externalThreeEntries.format,
            data, "application/x-flatbuffers"⟩]) ∧
      entryPointsOf data
        = some (externalThreeEntries.exportOps.map fun exportOp => exportOp.symName) ∧
      shaderModuleIndicesOf data
        = some (List.replicate externalThreeEntries.exportOps.length 0) ∧
      shaderModulesOf data = some [words] ∧ words.length = 2 ∧
      subgroupSizesOf data = none ∧ sourceLocationsOf data = none ∧
      stageLocationsOf data = none ∧ sourceFilesOf data = none :=
  serializeExternalExecutable_container ⟨0, "", "", ""⟩ externalThreeEntries []
    ⟨"kernels.spv", some [3, 2, 35, 7, 0, 0, 1, 0]⟩ [3, 2, 35, 7, 0, 0, 1, 0] 2 rfl rfl rfl

/-! ## Vector operations -/

theorem storeAt_ok {α : Type} {vec stored : List α} {index : Nat} {value : α}
    (h : storeAt vec index value = .ok stored) :
    index < vec.length ∧ stored = vec.set index value := by
  unfold storeAt at h
  split_ifs at h with hlt
  · exact ⟨hlt, by cases h; rfl⟩

theorem storeAt_of_lt {α : Type} (vec : List α) {index : Nat} (value : α)
    (h : index < vec.length) : storeAt vec index value = .ok (vec.set index value) := by
  simp [storeAt, h]

@[simp] theorem length_resize {α : Type} (vec : List α) (n : Nat) (dflt : α) :
    (resize vec n dflt).length = n := by
  simp [resize]
  omega

theorem resize_of_length {α : Type} (vec : List α) (n : Nat) (dflt : α)
    (h : vec.length = n) : resize vec n dflt = vec := by
  simp [resize, ← h]

theorem resize_nil {α : Type} (n : Nat) (dflt : α) :
    resize [] n dflt = List.replicate n dflt := by
  simp [resize]

theorem DenseMap.at_ok {map : DenseMap} {key : String} {value : Nat}
    (h : DenseMap.at map key = .ok value) : map.find key = some value := by
  unfold DenseMap.at at h
  split at h
  · next v hv => cases h; exact hv
  · cases h

/-! ## One iteration of the module loop -/

theorem recordSourceLocation_ok {options : SerializationOptions} {n ordinal : Nat}
    {loc : Location} {refs recorded : List (Option FileLineLoc)}
    (h : recordSourceLocation options n ordinal loc refs = .ok recorded) :
    (recorded = refs ∨
      (1 ≤ options.debugLevel ∧ ordinal < n ∧ ∃ found, findFirstFileLoc loc = some found ∧
        recorded = (resize refs n none).set ordinal (some found))) := by
  unfold recordSourceLocation at h
  split_ifs at h with hlevel
  · split at h
    · next found hfound =>
      obtain ⟨hlt, hset⟩ := storeAt_ok h
      rw [length_resize] at hlt
      exact Or.inr ⟨hlevel, hlt, found, hfound, hset⟩
    · cases h; exact Or.inl rfl
  · cases h; exact Or.inl rfl

theorem recordSourceLocation_level_zero {options : SerializationOptions} (n ordinal : Nat)
    (loc : Location) (refs : List (Option FileLineLoc)) (hdebug : options.debugLevel = 0) :
    recordSourceLocation options n ordinal loc refs = .ok refs := by
  simp [recordSourceLocation, hdebug]

theorem recordSourceLocation_of_lt (options : SerializationOptions) {n ordinal : Nat}
    (loc : Location) (refs : List (Option FileLineLoc)) (h : ordinal < n) :
    ∃ recorded, recordSourceLocation options n ordinal loc refs = .ok recorded := by
  unfold recordSourceLocation
  split_ifs
  · split
    · exact ⟨_, storeAt_of_lt _ _ (by simpa using h)⟩
    · exact ⟨_, rfl⟩
  · exact ⟨_, rfl⟩

/-- What a completed iteration did: the module has one entry point, whose
name is bound to an ordinal within the three vectors, its binary is not
empty, and the state is updated at that ordinal. -/
theorem encodeModule_ok {options : SerializationOptions} {ordinals : DenseMap} {n : Nat}
    {s next : ModuleLoopState} {spvModuleOp : spirv.ModuleOp}
    (h : encodeModule options ordinals n s spvModuleOp = .ok next) :
    ∃ spvEntryPoint ordinal spvBinary recorded,
      spvModuleOp.entryPoints = [spvEntryPoint] ∧
      ordinals.find spvEntryPoint.fn = some ordinal ∧
      spvModuleOp.serialized = some spvBinary ∧ spvBinary ≠ [] ∧
      ordinal < s.shaderModuleIndices.length ∧
      ordinal < s.entryPointNames.length ∧
      ordinal < s.subgroupSizes.length ∧
      recordSourceLocation options n ordinal spvEntryPoint.loc s.sourceLocationRefs
        = .ok recorded ∧
      next = { shaderModuleRefs := s.shaderModuleRefs ++ [spvBinary]
               entryPointNames := s.entryPointNames.set ordinal spvEntryPoint.fn
               subgroupSizes := s.subgroupSizes.set ordinal (subgroupSizeOf spvEntryPoint.abi).1
               shaderModuleIndices := s.shaderModuleIndices.set ordinal s.shaderModuleRefs.length
               sourceLocationRefs := recorded
               hasAnySubgroupSizes :=
                 s.hasAnySubgroupSizes || (subgroupSizeOf spvEntryPoint.abi).2 } := by
  unfold encodeModule at h
  split at h
  · next spvEntryPoint hentry =>
    split at h
    · cases h
    · next ordinal hat =>
      split at h
      · cases h
      · next spvBinary hserialized =>
        split_ifs at h with hempty
        split at h
        · cases h
        · next shaderModuleIndices hindices =>
          split at h
          · cases h
          · next entryPointNames hnames =>
            split at h
            · cases h
            · next subgroupSizes hsizes =>
              split at h
              · cases h
              · next recorded hrecorded =>
                obtain ⟨h1, rfl⟩ := storeAt_ok hindices
                obtain ⟨h2, rfl⟩ := storeAt_ok hnames
                obtain ⟨h3, rfl⟩ := storeAt_ok hsizes
                refine ⟨spvEntryPoint, ordinal, spvBinary, recorded, hentry,
                  DenseMap.at_ok hat, hserialized, ?_, h1, h2, h3, hrecorded, ?_⟩
                · intro hnil; simp [hnil] at hempty
                · cases h; rfl
  · cases h

theorem encodeModule_not_single (options : SerializationOptions) (ordinals : DenseMap)
    (n : Nat) (s : ModuleLoopState) (spvModuleOp : spirv.ModuleOp)
    (h : spvModuleOp.entryPoints.length ≠ 1) :
    encodeModule options ordinals n s spvModuleOp
      = .error (.failure "expected to contain exactly one entry point") := by
  unfold encodeModule
  split
  · next spvEntryPoint hentry => simp [hentry] at h
  · rfl

/-- An iteration whose lookups and stores are in range ends in a failure
return or in a next state; it has a defined result. -/
theorem encodeModule_in_range (options : SerializationOptions) (ordinals : DenseMap)
    (n : Nat) (s : ModuleLoopState) (spvModuleOp : spirv.ModuleOp)
    (hrange : ∀ e ∈ spvModuleOp.entryPoints,
      ∃ ordinal, ordinals.find e.fn = some ordinal ∧ ordinal < n)
    (hindices : s.shaderModuleIndices.length = n)
    (hnames : s.entryPointNames.length = n)
    (hsizes : s.subgroupSizes.length = n) :
    (∃ diag, encodeModule options ordinals n s spvModuleOp = .error (.failure diag)) ∨
    (∃ next, encodeModule options ordinals n s spvModuleOp = .ok next) := by
  by_cases hsingle : spvModuleOp.entryPoints.length = 1
  · obtain ⟨spvEntryPoint, hentry⟩ := List.length_eq_one.mp hsingle
    obtain ⟨ordinal, hfind, hlt⟩ := hrange spvEntryPoint (by simp [hentry])
    obtain ⟨recorded, hrecorded⟩ := recordSourceLocation_of_lt options spvEntryPoint.loc
      s.sourceLocationRefs hlt
    cases hserialized : spvModuleOp.serialized with
    | none =>
      exact Or.inl ⟨"failed to serialize", by
        simp [encodeModule, hentry, DenseMap.at, hfind, hserialized]⟩
    | some spvBinary =>
      cases hempty : spvBinary.isEmpty with
      | true =>
        exact Or.inl ⟨"failed to serialize", by
          simp [encodeModule, hentry, DenseMap.at, hfind, hserialized, hempty]⟩
      | false =>
        refine Or.inr
          ⟨{ shaderModuleRefs := s.shaderModuleRefs ++ [spvBinary]
             entryPointNames := s.entryPointNames.set ordinal spvEntryPoint.fn
             subgroupSizes := s.subgroupSizes.set ordinal (subgroupSizeOf spvEntryPoint.abi).1
             shaderModuleIndices := s.shaderModuleIndices.set ordinal s.shaderModuleRefs.length
             sourceLocationRefs := recorded
             hasAnySubgroupSizes :=
               s.hasAnySubgroupSizes || (subgroupSizeOf spvEntryPoint.abi).2 }, ?_⟩
        simp only [encodeModule, hentry, DenseMap.at, hfind, hserialized, hempty]
        rw [storeAt_of_lt _ _ (by omega), storeAt_of_lt _ _ (by omega),
          storeAt_of_lt _ _ (by omega), hrecorded]
        simp
  · exact Or.inl ⟨_, encodeModule_not_single options ordinals n s spvModuleOp hsingle⟩

/-! ## The module loop -/

theorem spirvModuleOpsLoop_reaches_failure (options : SerializationOptions)
    (ordinals : DenseMap) (n : Nat) (bad : spirv.ModuleOp) (post : List spirv.ModuleOp)
    (hbad : bad.entryPoints.length ≠ 1) (pre : List spirv.ModuleOp) :
    ∀ s : ModuleLoopState,
      (∀ m ∈ pre, ∀ e ∈ m.entryPoints,
        ∃ ordinal, ordinals.find e.fn = some ordinal ∧ ordinal < n) →
      s.shaderModuleIndices.length = n → s.entryPointNames.length = n →
      s.subgroupSizes.length = n →
      ∃ diag, spirvModuleOpsLoop options ordinals n (pre ++ bad :: post) s
        = .error (.failure diag) := by
  induction pre with
  | nil =>
    intro s _ _ _ _
    exact ⟨"expected to contain exactly one entry point", by
      simp [spirvModuleOpsLoop, encodeModule_not_single options ordinals n s bad hbad]⟩
  | cons m pre ih =>
    intro s hrange hindices hnames hsizes
    rcases encodeModule_in_range options ordinals n s m
        (hrange m (List.mem_cons_self _ _)) hindices hnames hsizes with ⟨diag, hfail⟩ | ⟨next, hnext⟩
    · exact ⟨diag, by simp [spirvModuleOpsLoop, hfail]⟩
    · obtain ⟨e, ordinal, spvBinary, recorded, -, -, -, -, -, -, -, -, hstate⟩ :=
        encodeModule_ok hnext
      obtain ⟨diag, hdiag⟩ := ih next
        (fun m' hm' => hrange m' (List.mem_cons_of_mem _ hm'))
        (by rw [hstate]; simpa using hindices) (by rw [hstate]; simpa using hnames)
        (by rw [hstate]; simpa using hsizes)
      refine ⟨diag, ?_⟩
      rw [List.cons_append]
      simp only [spirvModuleOpsLoop, hnext]
      exact hdiag

/-- The ordinal loop never leaves defined behaviour: it ends with a map or
with the failure for a missing ordinal. -/
theorem entryPointOrdinalsLoop_defined (exportOps : List ExecutableExportOp)
    (rest : List ExecutableExportOp) :
    ∀ ordinals : DenseMap,
      (∃ result, entryPointOrdinalsLoop exportOps rest ordinals = .ok result) ∨
      entryPointOrdinalsLoop exportOps rest ordinals
        = .error (.failure "should have ordinal attribute") := by
  induction rest with
  | nil => intro ordinals; exact Or.inl ⟨ordinals, rfl⟩
  | cons exportOp rest ih =>
    intro ordinals
    unfold entryPointOrdinalsLoop
    split
    · exact ih _
    · split_ifs
      · exact ih _
      · exact Or.inr rfl

theorem isEmpty_eq_false_of_append_cons {α : Type} (pre post : List α) (x : α) :
    (pre ++ x :: post).isEmpty = false := by
  cases pre <;> rfl

/-- C3 (amended): for a variant that is not external, if a shader module has
zero or more than one entry point, and every entry point of the modules
before it names an exported entry whose ordinal is below the entry count,
then `serializeExecutable` returns failure and leaves the builder as it was:
no artifact is created. -/
theorem serializeExecutable_module_entry_points (options : SerializationOptions)
    (variantOp : ExecutableVariantOp) (executableBuilder : OpBuilder)
    (pre post : List spirv.ModuleOp) (bad : spirv.ModuleOp)
    (hext : variantOp.isExternal = false)
    (hmodules : variantOp.spirvModuleOps = pre ++ bad :: post)
    (hbad : bad.entryPoints.length ≠ 1)
    (hrange : ∀ ordinals, entryPointOrdinals variantOp = .ok ordinals →
      ∀ m ∈ pre, ∀ e ∈ m.entryPoints,
        ∃ ordinal, ordinals.find e.fn = some ordinal ∧ ordinal < DenseMap.size ordinals) :
    ∃ diag, serializeExecutable options variantOp executableBuilder
      = .ok (.failure diag, executableBuilder) := by
  have hne := isEmpty_eq_false_of_append_cons pre post bad
  rcases entryPointOrdinalsLoop_defined variantOp.exportOps variantOp.exportOps []
    with ⟨ordinals, hordinals⟩ | hfail
  · obtain ⟨diag, hdiag⟩ := spirvModuleOpsLoop_reaches_failure options ordinals
      (DenseMap.size ordinals) bad post hbad pre
      (ModuleLoopState.start (DenseMap.size ordinals)) (hrange ordinals hordinals)
      (by simp [ModuleLoopState.start]) (by simp [ModuleLoopState.start])
      (by simp [ModuleLoopState.start])
    refine ⟨diag, ?_⟩
    simp only [serializeExecutable, hext, buildExecutableDef, hmodules, hne,
      entryPointOrdinals] at hordinals ⊢
    simp [hordinals, hdiag, finish]
  · refine ⟨"should have ordinal attribute", ?_⟩
    simp only [serializeExecutable, hext, buildExecutableDef, hmodules, hne, entryPointOrdinals]
    simp [hfail, finish]

/-- The second module of `moduleWithTwoEntryPoints` makes the call fail. -/
theorem serializeExecutable_module_entry_points_witness :
    ∃ diag, serializeExecutable ⟨0, "", "", ""⟩ moduleWithTwoEntryPoints []
      = .ok (.failure diag, []) :=
  serializeExecutable_module_entry_points ⟨0, "", "", ""⟩ moduleWithTwoEntryPoints []
    [⟨[⟨"a", .unknown, none⟩], some [119734787]⟩] []
    ⟨[⟨"b", .unknown, none⟩, ⟨"c", .unknown, none⟩], some [119734787]⟩
    rfl rfl (by simp)
    (by
      intro ordinals hordinals m hm e he
      have hmap : ordinals = [("a", 0), ("b", 1), ("c", 2)] := by
        have : entryPointOrdinals moduleWithTwoEntryPoints
            = .ok [("a", 0), ("b", 1), ("c", 2)] := rfl
        rw [this] at hordinals
        cases hordinals
        rfl
      subst hmap
      simp only [List.mem_singleton] at hm
      subst hm
      simp only [List.mem_singleton] at he
      subst he
      exact ⟨0, rfl, by decide⟩)

/-- C3 (as stated) fails: the first module of this variant names an entry
that is not exported, so `entryPointOrdinals.at` has no defined result, and
the module without an entry point is never reached: the call does not return
failure. -/
theorem serializeExecutable_module_entry_points_counterexample :
    unexportedEntryThenNoEntryPoint.isExternal = false ∧
    (∃ m ∈ unexportedEntryThenNoEntryPoint.spirvModuleOps, m.entryPoints.length ≠ 1) ∧
    serializeExecutable ⟨0, "", "", ""⟩ unexportedEntryThenNoEntryPoint []
      = .error (.missingKey "b") ∧
    ¬ ∃ diag, serializeExecutable ⟨0, "", "", ""⟩ unexportedEntryThenNoEntryPoint []
      = .ok (.failure diag, []) := by
  have hrun : serializeExecutable ⟨0, "", "", ""⟩ unexportedEntryThenNoEntryPoint []
      = .error (.missingKey "b") := rfl
  refine ⟨rfl, ⟨⟨[], some [119734787]⟩, by simp [unexportedEntryThenNoEntryPoint], by simp⟩,
    hrun, ?_⟩
  rintro ⟨diag, hdiag⟩
  rw [hrun] at hdiag
  cases hdiag

/-! ## What a successful call went through -/

theorem spirvModuleOpsLoop_nil_ok {options : SerializationOptions} {ordinals : DenseMap}
    {n : Nat} {s final : ModuleLoopState}
    (h : spirvModuleOpsLoop options ordinals n [] s = .ok final) : final = s := by
  simp only [spirvModuleOpsLoop, Except.ok.injEq] at h
  exact h.symm

theorem spirvModuleOpsLoop_cons_ok {options : SerializationOptions} {ordinals : DenseMap}
    {n : Nat} {m : spirv.ModuleOp} {rest : List spirv.ModuleOp} {s final : ModuleLoopState}
    (h : spirvModuleOpsLoop options ordinals n (m :: rest) s = .ok final) :
    ∃ next, encodeModule options ordinals n s m = .ok next ∧
      spirvModuleOpsLoop options ordinals n rest next = .ok final := by
  unfold spirvModuleOpsLoop at h
  split at h
  · cases h
  · next next hnext => exact ⟨next, hnext, h⟩

theorem buildExecutableDef_ok {options : SerializationOptions}
    {variantOp : ExecutableVariantOp} {data : ExecutableDef}
    (h : buildExecutableDef options variantOp = .ok data) :
    ∃ ordinals s stage,
      entryPointOrdinals variantOp = .ok ordinals ∧
      spirvModuleOpsLoop options ordinals (DenseMap.size ordinals) variantOp.spirvModuleOps
        (ModuleLoopState.start (DenseMap.size ordinals)) = .ok s ∧
      stageLocations options (DenseMap.size ordinals) variantOp.exportOps = .ok stage ∧
      data = topLevelFields s stage (sourceFileRefs variantOp.sources) := by
  unfold buildExecutableDef at h
  split_ifs at h
  split at h
  · cases h
  · next ordinals hordinals =>
    split at h
    · cases h
    · next s hs =>
      split at h
      · cases h
      · next stage hstage =>
        cases h
        exact ⟨ordinals, s, stage, hordinals, hs, hstage, rfl⟩

theorem serializeExecutable_success {options : SerializationOptions}
    {variantOp : ExecutableVariantOp} {executableBuilder after : OpBuilder}
    (hext : variantOp.isExternal = false)
    (h : serializeExecutable options variantOp executableBuilder = .ok (.success, after)) :
    ∃ data, buildExecutableDef options variantOp = .ok data ∧
      after = executableBuilder ++
        [⟨variantOp.symName, variantOp.format, data, "application/x-flatbuffers"⟩] := by
  simp only [serializeExecutable, hext] at h
  exact finish_success h

theorem serializeExternalExecutable_success {options : SerializationOptions}
    {variantOp : ExecutableVariantOp} {executableBuilder after : OpBuilder}
    (h : serializeExternalExecutable options variantOp executableBuilder
      = .ok (.success, after)) :
    ∃ spvBinary,
      after = executableBuilder ++
        [⟨variantOp.symName, variantOp.format,
          [ .entryPoints (variantOp.exportOps.map fun exportOp => exportOp.symName),
            .shaderModuleIndices (List.replicate variantOp.exportOps.length 0),
            .shaderModules [wordsOfBytes spvBinary] ],
          "application/x-flatbuffers"⟩] := by
  obtain ⟨data, hdata, hafter⟩ := finish_success h
  by_cases hcond : ∃ objectAttr spvBinary, variantOp.objects = some [objectAttr] ∧
      objectAttr.data = some spvBinary ∧ spvBinary.length % 4 = 0
  · obtain ⟨objectAttr, spvBinary, hobjects, hloaded, haligned⟩ := hcond
    rw [buildExternalExecutableDef_ok variantOp objectAttr spvBinary hobjects hloaded
      haligned] at hdata
    cases hdata
    exact ⟨spvBinary, hafter⟩
  · obtain ⟨diag, hdiag⟩ := buildExternalExecutableDef_failure variantOp hcond
    rw [hdiag] at hdata
    cases hdata

/-! ## Lengths of the per-entry vectors -/

theorem spirvModuleOpsLoop_lengths {options : SerializationOptions} {ordinals : DenseMap}
    {n : Nat} (ms : List spirv.ModuleOp) :
    ∀ {s final : ModuleLoopState}, spirvModuleOpsLoop options ordinals n ms s = .ok final →
      final.entryPointNames.length = s.entryPointNames.length ∧
      final.subgroupSizes.length = s.subgroupSizes.length ∧
      final.shaderModuleIndices.length = s.shaderModuleIndices.length := by
  induction ms with
  | nil => intro s final h; rw [spirvModuleOpsLoop_nil_ok h]; exact ⟨rfl, rfl, rfl⟩
  | cons m rest ih =>
    intro s final h
    obtain ⟨next, hnext, hrest⟩ := spirvModuleOpsLoop_cons_ok h
    obtain ⟨e, ordinal, spvBinary, recorded, -, -, -, -, -, -, -, -, hstate⟩ :=
      encodeModule_ok hnext
    obtain ⟨h1, h2, h3⟩ := ih hrest
    rw [h1, h2, h3, hstate]
    simp

theorem spirvModuleOpsLoop_sourceLocationRefs_length {options : SerializationOptions}
    {ordinals : DenseMap} {n : Nat} (ms : List spirv.ModuleOp) :
    ∀ {s final : ModuleLoopState}, spirvModuleOpsLoop options ordinals n ms s = .ok final →
      (s.sourceLocationRefs = [] ∨ s.sourceLocationRefs.length = n) →
      (final.sourceLocationRefs = [] ∨ final.sourceLocationRefs.length = n) := by
  induction ms with
  | nil => intro s final h hs; rw [spirvModuleOpsLoop_nil_ok h]; exact hs
  | cons m rest ih =>
    intro s final h hs
    obtain ⟨next, hnext, hrest⟩ := spirvModuleOpsLoop_cons_ok h
    obtain ⟨e, ordinal, spvBinary, recorded, -, -, -, -, -, -, -, hrecorded, hstate⟩ :=
      encodeModule_ok hnext
    apply ih hrest
    rw [hstate]
    rcases recordSourceLocation_ok hrecorded with hsame | ⟨-, -, found, -, hset⟩
    · simpa [hsame] using hs
    · exact Or.inr (by simp [hset])

theorem spirvModuleOpsLoop_level_zero {options : SerializationOptions} {ordinals : DenseMap}
    {n : Nat} (hdebug : options.debugLevel = 0) (ms : List spirv.ModuleOp) :
    ∀ {s final : ModuleLoopState}, spirvModuleOpsLoop options ordinals n ms s = .ok final →
      final.sourceLocationRefs = s.sourceLocationRefs := by
  induction ms with
  | nil => intro s final h; rw [spirvModuleOpsLoop_nil_ok h]
  | cons m rest ih =>
    intro s final h
    obtain ⟨next, hnext, hrest⟩ := spirvModuleOpsLoop_cons_ok h
    obtain ⟨e, ordinal, spvBinary, recorded, -, -, -, -, -, -, -, hrecorded, hstate⟩ :=
      encodeModule_ok hnext
    rw [ih hrest, hstate]
    rw [recordSourceLocation_level_zero _ _ _ _ hdebug] at hrecorded
    cases hrecorded
    rfl

theorem stageLocationsLoop_length {n : Nat} (exportOps : List ExecutableExportOp) :
    ∀ {refs final : List (Option (List StageLocationDef))},
      stageLocationsLoop n exportOps refs = .ok final →
      (refs = [] ∨ refs.length = n) → (final = [] ∨ final.length = n) := by
  induction exportOps with
  | nil =>
    intro refs final h hrefs
    simp only [stageLocationsLoop, Except.ok.injEq] at h
    rw [← h]; exact hrefs
  | cons exportOp rest ih =>
    intro refs final h hrefs
    unfold stageLocationsLoop at h
    split_ifs at h
    · exact ih h hrefs
    · split at h
      · cases h
      · split at h
        · cases h
        · next stored hstored =>
          obtain ⟨-, hset⟩ := storeAt_ok hstored
          exact ih h (Or.inr (by simp [hset]))

theorem stageLocations_length {options : SerializationOptions} {n : Nat}
    {exportOps : List ExecutableExportOp} {final : List (Option (List StageLocationDef))}
    (h : stageLocations options n exportOps = .ok final) :
    final = [] ∨ final.length = n := by
  unfold stageLocations at h
  split_ifs at h
  · exact stageLocationsLoop_length exportOps h (Or.inl rfl)
  · cases h; exact Or.inl rfl

/-- C7: after a successful serialization on the generated path, the entry
point names, the module indices, and each of the subgroup sizes, source
locations and stage locations that is present in the container, have the
same length: the entry count of the ordinal loop (the size of
`entryPointOrdinals`). -/
theorem serializeExecutable_lengths (options : SerializationOptions)
    (variantOp : ExecutableVariantOp) (executableBuilder after : OpBuilder)
    (hext : variantOp.isExternal = false)
    (hsuccess : serializeExecutable options variantOp executableBuilder
      = .ok (.success, after)) :
    ∃ ordinals data names indices,
      entryPointOrdinals variantOp = .ok ordinals ∧
      after = executableBuilder ++
        [⟨variantOp.symName, variantOp.format, data, "application/x-flatbuffers"⟩] ∧
      entryPointsOf data = some names ∧ names.length = DenseMap.size ordinals ∧
      shaderModuleIndicesOf data = some indices ∧ indices.length = DenseMap.size ordinals ∧
      (∀ sizes, subgroupSizesOf data = some sizes → sizes.length = DenseMap.size ordinals) ∧
      (∀ locs, sourceLocationsOf data = some locs → locs.length = DenseMap.size ordinals) ∧
      (∀ locs, stageLocationsOf data = some locs → locs.length = DenseMap.size ordinals) := by
  obtain ⟨data, hdata, hafter⟩ := serializeExecutable_success hext hsuccess
  obtain ⟨ordinals, s, stage, hordinals, hloop, hstage, rfl⟩ := buildExecutableDef_ok hdata
  obtain ⟨hnames, hsizes, hindices⟩ := spirvModuleOpsLoop_lengths _ hloop
  have hlocs := spirvModuleOpsLoop_sourceLocationRefs_length _ hloop
    (Or.inl (by simp [ModuleLoopState.start]))
  have hstages := stageLocations_length hstage
  simp only [ModuleLoopState.start, length_resize] at hnames hsizes hindices
  refine ⟨ordinals, _, s.entryPointNames, s.shaderModuleIndices, hordinals, hafter, by simp,
    hnames, by simp, hindices, ?_, ?_, ?_⟩
  · intro sizes h
    rw [subgroupSizesOf_topLevelFields] at h
    split_ifs at h
    cases h
    exact hsizes
  · intro locs h
    rw [sourceLocationsOf_topLevelFields] at h
    split_ifs at h with hnil
    cases h
    exact hlocs.resolve_left hnil
  · intro locs h
    rw [stageLocationsOf_topLevelFields] at h
    split_ifs at h with hnil
    cases h
    exact hstages.resolve_left hnil

/-- C8: at debug level 0, whatever locations the entry points carry, the
container of a successful serialization (on either path) has neither a
source locations field nor a stage locations field. -/
theorem serializeExecutable_level_zero (options : SerializationOptions)
    (variantOp : ExecutableVariantOp) (executableBuilder after : OpBuilder)
    (hdebug : options.debugLevel = 0)
    (hsuccess : serializeExecutable options variantOp executableBuilder
      = .ok (.success, after)) :
    ∃ data,
      after = executableBuilder ++
        [⟨variantOp.symName, variantOp.format, data, "application/x-flatbuffers"⟩] ∧
      sourceLocationsOf data = none ∧ stageLocationsOf data = none := by
  cases hext : variantOp.isExternal with
  | true =>
    simp only [serializeExecutable, hext, if_true] at hsuccess
    obtain ⟨spvBinary, hafter⟩ := serializeExternalExecutable_success hsuccess
    exact ⟨_, hafter, rfl, rfl⟩
  | false =>
    obtain ⟨data, hdata, hafter⟩ := serializeExecutable_success hext hsuccess
    obtain ⟨ordinals, s, stage, hordinals, hloop, hstage, rfl⟩ := buildExecutableDef_ok hdata
    have hlocs := spirvModuleOpsLoop_level_zero hdebug _ hloop
    have hstages : stage = [] := by
      simp only [stageLocations, hdebug] at hstage
      cases hstage
      rfl
    refine ⟨_, hafter, ?_, ?_⟩
    · simp [hlocs, ModuleLoopState.start]
    · simp [hstages]

/-! ## What the module loop writes -/

theorem subgroupSizeOf_declared {e : spirv.EntryPointOp} {size : Int}
    (h : DeclaresSubgroupSize e size) : subgroupSizeOf e.abi = (size, true) := by
  obtain ⟨abi, habi, hsize⟩ := h
  simp [subgroupSizeOf, habi, hsize]

theorem subgroupSizeOf_undeclared {e : spirv.EntryPointOp}
    (h : ∀ size, ¬ DeclaresSubgroupSize e size) : subgroupSizeOf e.abi = (0, false) := by
  unfold subgroupSizeOf
  split
  · next attr hattr =>
    split
    · next size hsize => exact absurd ⟨attr, hattr, hsize⟩ (h size)
    · rfl
  · rfl

theorem subgroupSizeOf_snd (e : spirv.EntryPointOp) :
    (subgroupSizeOf e.abi).2 = true ↔ ∃ size, DeclaresSubgroupSize e size := by
  constructor
  · intro h
    by_contra hnone
    rw [subgroupSizeOf_undeclared (fun size hsize => hnone ⟨size, hsize⟩)] at h
    cases h
  · rintro ⟨size, hsize⟩
    rw [subgroupSizeOf_declared hsize]

theorem spirvModuleOpsLoop_shaderModuleRefs {options : SerializationOptions}
    {ordinals : DenseMap} {n : Nat} (ms : List spirv.ModuleOp) :
    ∀ {s final : ModuleLoopState}, spirvModuleOpsLoop options ordinals n ms s = .ok final →
      final.shaderModuleRefs.map some
        = s.shaderModuleRefs.map some ++ ms.map fun m => m.serialized := by
  induction ms with
  | nil => intro s final h; rw [spirvModuleOpsLoop_nil_ok h]; simp
  | cons m rest ih =>
    intro s final h
    obtain ⟨next, hnext, hrest⟩ := spirvModuleOpsLoop_cons_ok h
    obtain ⟨e, ordinal, spvBinary, recorded, -, -, hserialized, -, -, -, -, -, hstate⟩ :=
      encodeModule_ok hnext
    rw [ih hrest, hstate]
    simp [hserialized]

theorem spirvModuleOpsLoop_hasAnySubgroupSizes {options : SerializationOptions}
    {ordinals : DenseMap} {n : Nat} (ms : List spirv.ModuleOp) :
    ∀ {s final : ModuleLoopState}, spirvModuleOpsLoop options ordinals n ms s = .ok final →
      (final.hasAnySubgroupSizes = true ↔
        s.hasAnySubgroupSizes = true ∨
          ∃ m ∈ ms, ∃ e ∈ m.entryPoints, ∃ size, DeclaresSubgroupSize e size) := by
  induction ms with
  | nil => intro s final h; rw [spirvModuleOpsLoop_nil_ok h]; simp
  | cons m rest ih =>
    intro s final h
    obtain ⟨next, hnext, hrest⟩ := spirvModuleOpsLoop_cons_ok h
    obtain ⟨e, ordinal, spvBinary, recorded, hentry, -, -, -, -, -, -, -, hstate⟩ :=
      encodeModule_ok hnext
    rw [ih hrest, hstate]
    simp only [Bool.or_eq_true, subgroupSizeOf_snd, List.mem_cons, exists_eq_or_imp, hentry,
      List.mem_singleton, exists_eq_left, or_assoc, List.not_mem_nil, false_and, exists_false,
      false_or]

/-- A slot that is the ordinal of no entry point of the modules is left as
it was. -/
theorem spirvModuleOpsLoop_frame {options : SerializationOptions} {ordinals : DenseMap}
    {n : Nat} (ms : List spirv.ModuleOp) :
    ∀ {s final : ModuleLoopState}, spirvModuleOpsLoop options ordinals n ms s = .ok final →
      ∀ slot, (∀ m ∈ ms, ∀ e ∈ m.entryPoints, ordinals.find e.fn ≠ some slot) →
        final.entryPointNames[slot]? = s.entryPointNames[slot]? ∧
        final.subgroupSizes[slot]? = s.subgroupSizes[slot]? ∧
        final.shaderModuleIndices[slot]? = s.shaderModuleIndices[slot]? := by
  induction ms with
  | nil => intro s final h slot _; rw [spirvModuleOpsLoop_nil_ok h]; exact ⟨rfl, rfl, rfl⟩
  | cons m rest ih =>
    intro s final h slot hslot
    obtain ⟨next, hnext, hrest⟩ := spirvModuleOpsLoop_cons_ok h
    obtain ⟨e, ordinal, spvBinary, recorded, hentry, hfind, -, -, -, -, -, -, hstate⟩ :=
      encodeModule_ok hnext
    obtain ⟨h1, h2, h3⟩ := ih hrest slot
      (fun m' hm' => hslot m' (List.mem_cons_of_mem _ hm'))
    have hne : ordinal ≠ slot := by
      intro heq
      exact hslot m (List.mem_cons_self _ _) e (by simp [hentry]) (by rw [hfind, heq])
    rw [h1, h2, h3, hstate]
    simp [List.getElem?_set_ne hne]

/-- With pairwise distinct ordinals, what the module at position `i` wrote at
the ordinal of its entry point is still there after the loop. -/
theorem spirvModuleOpsLoop_slots {options : SerializationOptions} {ordinals : DenseMap}
    {n : Nat} (ms : List spirv.ModuleOp) :
    ∀ {s final : ModuleLoopState}, spirvModuleOpsLoop options ordinals n ms s = .ok final →
      DistinctOrdinals ordinals ms →
      ∀ i m, ms[i]? = some m → ∀ e ∈ m.entryPoints,
        ∃ ordinal, ordinals.find e.fn = some ordinal ∧
          final.shaderModuleIndices[ordinal]? = some (s.shaderModuleRefs.length + i) ∧
          final.entryPointNames[ordinal]? = some e.fn ∧
          final.subgroupSizes[ordinal]? = some (subgroupSizeOf e.abi).1 := by
  induction ms with
  | nil => intro s final _ _ i m hm; simp at hm
  | cons m0 rest ih =>
    intro s final h hdistinct i m hm e he
    obtain ⟨next, hnext, hrest⟩ := spirvModuleOpsLoop_cons_ok h
    obtain ⟨e0, ordinal, spvBinary, recorded, hentry, hfind, -, -, hlt1, hlt2, hlt3, -,
      hstate⟩ := encodeModule_ok hnext
    obtain ⟨hhead, htail⟩ := List.pairwise_cons.mp hdistinct
    cases i with
    | zero =>
      simp only [List.getElem?_cons_zero, Option.some.injEq] at hm
      subst hm
      rw [hentry, List.mem_singleton] at he
      subst he
      obtain ⟨h1, h2, h3⟩ := spirvModuleOpsLoop_frame rest hrest ordinal (by
        intro m' hm' e' he' heq
        exact hhead m' hm' e (by simp [hentry]) e' he' (by rw [hfind, heq]))
      refine ⟨ordinal, hfind, ?_, ?_, ?_⟩
      · rw [h3, hstate]; simp [List.getElem?_set_self hlt1]
      · rw [h1, hstate]; simp [List.getElem?_set_self hlt2]
      · rw [h2, hstate]; simp [List.getElem?_set_self hlt3]
    | succ j =>
      simp only [List.getElem?_cons_succ] at hm
      obtain ⟨o, hfo, h1, h2, h3⟩ := ih hrest htail j m hm e he
      refine ⟨o, hfo, ?_, h2, h3⟩
      rw [h1, hstate]
      simp only [List.length_append, List.length_singleton]
      congr 1
      omega

theorem spirvModuleOpsLoop_single {options : SerializationOptions} {ordinals : DenseMap}
    {n : Nat} (ms : List spirv.ModuleOp) :
    ∀ {s final : ModuleLoopState}, spirvModuleOpsLoop options ordinals n ms s = .ok final →
      ∀ m ∈ ms, ∃ e, m.entryPoints = [e] := by
  induction ms with
  | nil => intro s final _ m hm; simp at hm
  | cons m0 rest ih =>
    intro s final h m hm
    obtain ⟨next, hnext, hrest⟩ := spirvModuleOpsLoop_cons_ok h
    obtain ⟨e0, -, -, -, hentry, -⟩ := encodeModule_ok hnext
    rcases List.mem_cons.mp hm with rfl | hm
    · exact ⟨e0, hentry⟩
    · exact ih hrest m hm

/-! ## Subgroup sizes -/

/-- C6: after a successful serialization on the generated path, the entry
points of the modules having pairwise distinct ordinals, the subgroup sizes
field is present exactly when the entry point of some module declares a
subgroup size; and when it is present, the list holds the declared size at
the ordinal of every entry point that declares one, and 0 at the ordinal of
every entry point that declares none. -/
theorem serializeExecutable_subgroup_sizes (options : SerializationOptions)
    (variantOp : ExecutableVariantOp) (executableBuilder after : OpBuilder)
    (ordinals : DenseMap)
    (hext : variantOp.isExternal = false)
    (hsuccess : serializeExecutable options variantOp executableBuilder
      = .ok (.success, after))
    (hordinals : entryPointOrdinals variantOp = .ok ordinals)
    (hdistinct : DistinctOrdinals ordinals variantOp.spirvModuleOps) :
    ∃ data,
      after = executableBuilder ++
        [⟨variantOp.symName, variantOp.format, data, "application/x-flatbuffers"⟩] ∧
      ((∃ sizes, subgroupSizesOf data = some sizes) ↔
        ∃ m ∈ variantOp.spirvModuleOps, ∃ e ∈ m.entryPoints, ∃ size,
          DeclaresSubgroupSize e size) ∧
      ∀ sizes, subgroupSizesOf data = some sizes →
        ∀ m ∈ variantOp.spirvModuleOps, ∀ e ∈ m.entryPoints,
          ∃ ordinal, ordinals.find e.fn = some ordinal ∧
            (∀ size, DeclaresSubgroupSize e size → sizes[ordinal]? = some size) ∧
            ((∀ size, ¬ DeclaresSubgroupSize e size) → sizes[ordinal]? = some 0) := by
  obtain ⟨data, hdata, hafter⟩ := serializeExecutable_success hext hsuccess
  obtain ⟨ordinals', s, stage, hordinals', hloop, -, rfl⟩ := buildExecutableDef_ok hdata
  rw [hordinals] at hordinals'
  cases hordinals'
  have hany := spirvModuleOpsLoop_hasAnySubgroupSizes _ hloop
  simp only [ModuleLoopState.start, Bool.false_eq_true, false_or] at hany
  refine ⟨_, hafter, ?_, ?_⟩
  · rw [subgroupSizesOf_topLevelFields, ← hany]
    cases s.hasAnySubgroupSizes <;> simp
  · intro sizes hsizes m hm e he
    rw [subgroupSizesOf_topLevelFields] at hsizes
    split_ifs at hsizes
    cases hsizes
    obtain ⟨i, hi⟩ := List.getElem?_of_mem hm
    obtain ⟨ordinal, hfind, -, -, hslot⟩ :=
      spirvModuleOpsLoop_slots _ hloop hdistinct i m hi e he
    refine ⟨ordinal, hfind, ?_, ?_⟩
    · intro size hsize
      rw [hslot, subgroupSizeOf_declared hsize]
    · intro hnone
      rw [hslot, subgroupSizeOf_undeclared hnone]

/-- The subgroup sizes of `twoEntries`: 64 at ordinal 1, 0 at ordinal 0. -/
theorem serializeExecutable_subgroup_sizes_witness :
    ∃ data,
      [twoEntriesBinaryOp3] = [] ++
        [⟨twoEntries.symName, twoEntries.format, data, "application/x-flatbuffers"⟩] ∧
      ((∃ sizes, subgroupSizesOf data = some sizes) ↔
        ∃ m ∈ twoEntries.spirvModuleOps, ∃ e ∈ m.entryPoints, ∃ size,
          DeclaresSubgroupSize e size) ∧
      ∀ sizes, subgroupSizesOf data = some sizes →
        ∀ m ∈ twoEntries.spirvModuleOps, ∀ e ∈ m.entryPoints,
          ∃ ordinal, DenseMap.find [("a", 1), ("b", 0)] e.fn = some ordinal ∧
            (∀ size, DeclaresSubgroupSize e size → sizes[ordinal]? = some size) ∧
            ((∀ size, ¬ DeclaresSubgroupSize e size) → sizes[ordinal]? = some 0) :=
  serializeExecutable_subgroup_sizes debugLevel3 twoEntries [] [twoEntriesBinaryOp3]
    [("a", 1), ("b", 0)] rfl rfl rfl (by decide)

/-! ## Shader modules, module indices and names -/

/-- C10: after a successful serialization on the generated path of the
modules `m_0 .. m_(k-1)`, their entry points having pairwise distinct
ordinals, the shader modules are exactly `k` blobs, blob `i` being the words
the backend gives for `m_i`; every module has exactly one entry point; and
for every `i`, at the ordinal of the entry point of `m_i` the module indices
hold `i` and the names hold the name of that entry point. -/
theorem serializeExecutable_shader_modules (options : SerializationOptions)
    (variantOp : ExecutableVariantOp) (executableBuilder after : OpBuilder)
    (ordinals : DenseMap)
    (hext : variantOp.isExternal = false)
    (hsuccess : serializeExecutable options variantOp executableBuilder
      = .ok (.success, after))
    (hordinals : entryPointOrdinals variantOp = .ok ordinals)
    (hdistinct : DistinctOrdinals ordinals variantOp.spirvModuleOps) :
    ∃ data blobs names indices,
      after = executableBuilder ++
        [⟨variantOp.symName, variantOp.format, data, "application/x-flatbuffers"⟩] ∧
      shaderModulesOf data = some blobs ∧
      blobs.length = variantOp.spirvModuleOps.length ∧
      blobs.map some = variantOp.spirvModuleOps.map (fun m => m.serialized) ∧
      entryPointsOf data = some names ∧
      shaderModuleIndicesOf data = some indices ∧
      (∀ m ∈ variantOp.spirvModuleOps, ∃ e, m.entryPoints = [e]) ∧
      ∀ i m, variantOp.spirvModuleOps[i]? = some m → ∀ e ∈ m.entryPoints,
        ∃ ordinal, ordinals.find e.fn = some ordinal ∧
          indices[ordinal]? = some i ∧ names[ordinal]? = some e.fn := by
  obtain ⟨data, hdata, hafter⟩ := serializeExecutable_success hext hsuccess
  obtain ⟨ordinals', s, stage, hordinals', hloop, -, rfl⟩ := buildExecutableDef_ok hdata
  rw [hordinals] at hordinals'
  cases hordinals'
  have hrefs := spirvModuleOpsLoop_shaderModuleRefs _ hloop
  simp only [ModuleLoopState.start, List.map_nil, List.nil_append] at hrefs
  refine ⟨_, s.shaderModuleRefs, s.entryPointNames, s.shaderModuleIndices, hafter, by simp,
    ?_, hrefs, by simp, by simp, spirvModuleOpsLoop_single _ hloop, ?_⟩
  · have := congrArg List.length hrefs
    simpa using this
  · intro i m hm e he
    obtain ⟨ordinal, hfind, hindex, hname, -⟩ :=
      spirvModuleOpsLoop_slots _ hloop hdistinct i m hm e he
    refine ⟨ordinal, hfind, ?_, hname⟩
    simpa [ModuleLoopState.start] using hindex

/-- The shader modules, indices and names of `twoEntries`. -/
theorem serializeExecutable_shader_modules_witness :
    ∃ data blobs names indices,
      [twoEntriesBinaryOp0] = [] ++
        [⟨twoEntries.symName, twoEntries.format, data, "application/x-flatbuffers"⟩] ∧
      shaderModulesOf data = some blobs ∧
      blobs.length = twoEntries.spirvModuleOps.length ∧
      blobs.map some = twoEntries.spirvModuleOps.map (fun m => m.serialized) ∧
      entryPointsOf data = some names ∧
      shaderModuleIndicesOf data = some indices ∧
      (∀ m ∈ twoEntries.spirvModuleOps, ∃ e, m.entryPoints = [e]) ∧
      ∀ i m, twoEntries.spirvModuleOps[i]? = some m → ∀ e ∈ m.entryPoints,
        ∃ ordinal, DenseMap.find [("a", 1), ("b", 0)] e.fn = some ordinal ∧
          indices[ordinal]? = some i ∧ names[ordinal]? = some e.fn :=
  serializeExecutable_shader_modules debugLevel0 twoEntries [] [twoEntriesBinaryOp0]
    [("a", 1), ("b", 0)] rfl rfl rfl (by decide)

/-! ## Witnesses for the lengths and for debug level 0 -/

/-- The vectors of `twoEntries` at debug level 3 all have length 2. -/
theorem serializeExecutable_lengths_witness :
    ∃ ordinals data names indices,
      entryPointOrdinals twoEntries = .ok ordinals ∧
      [twoEntriesBinaryOp3] = [] ++
        [⟨twoEntries.symName, twoEntries.format, data, "application/x-flatbuffers"⟩] ∧
      entryPointsOf data = some names ∧ names.length = DenseMap.size ordinals ∧
      shaderModuleIndicesOf data = some indices ∧ indices.length = DenseMap.size ordinals ∧
      (∀ sizes, subgroupSizesOf data = some sizes → sizes.length = DenseMap.size ordinals) ∧
      (∀ locs, sourceLocationsOf data = some locs → locs.length = DenseMap.size ordinals) ∧
      (∀ locs, stageLocationsOf data = some locs → locs.length = DenseMap.size ordinals) :=
  serializeExecutable_lengths debugLevel3 twoEntries [] [twoEntriesBinaryOp3] rfl rfl

/-- The container of `twoEntries` at debug level 0 has no location field. -/
theorem serializeExecutable_level_zero_witness :
    ∃ data,
      [twoEntriesBinaryOp0] = [] ++
        [⟨twoEntries.symName, twoEntries.format, data, "application/x-flatbuffers"⟩] ∧
      sourceLocationsOf data = none ∧ stageLocationsOf data = none :=
  serializeExecutable_level_zero debugLevel0 twoEntries [] [twoEntriesBinaryOp0] rfl rfl

/-! ## Stage locations of an entry point without an ordinal -/

/-- C9: the code at its failing input. The variant has a single entry point
without an explicit ordinal, which the ordinal loop binds to 0; its module
serializes; its stage location `codegen` resolves to `main.mlir:12`. At
debug level 2 the serialization succeeds. At debug level 3 the stage location
loop reads the ordinal with `getOrdinalAttr().getInt()` on the missing
attribute, so the call has no defined result instead of a container with the
stage locations at slot 0. -/
theorem serializeExecutable_stage_locations_without_ordinal :
    singleEntryWithoutOrdinal.isExternal = false ∧
    entryPointOrdinals singleEntryWithoutOrdinal = .ok [("main", 0)] ∧
    (singleEntryWithoutOrdinal.exportOps.map fun exportOp =>
        (exportOp.ordinal, stageLocationRefs exportOp.sourceLocs))
      = [(none, [⟨"codegen", ⟨"main.mlir", 12⟩⟩])] ∧
    serializeExecutable ⟨2, "", "", ""⟩ singleEntryWithoutOrdinal []
      = .ok (.success, [⟨"variant", "vulkan-spirv-fb",
          [.entryPoints ["main"], .shaderModuleIndices [0],
           .shaderModules [[119734787, 65536]],
           .sourceLocations [some ⟨"main.mlir", 12⟩]],
          "application/x-flatbuffers"⟩]) ∧
    serializeExecutable debugLevel3 singleEntryWithoutOrdinal []
      = .error (.nullOrdinalAttr "main") :=
  ⟨rfl, rfl, rfl, rfl, rfl⟩

/-! ## The builder after a call -/

theorem finish_returned {variantOp : ExecutableVariantOp} {executableBuilder after : OpBuilder}
    {built : Except Stop ExecutableDef} {result : LogicalResult}
    (h : finish variantOp executableBuilder built = .ok (result, after)) :
    (result = .success ∧ ∃ op, after = executableBuilder ++ [op]) ∨
    ((∃ diag, result = .failure diag) ∧ after = executableBuilder) := by
  match built, h with
  | .ok data, h =>
    simp only [finish, Except.ok.injEq, Prod.mk.injEq] at h
    exact Or.inl ⟨h.1.symm, _, h.2.symm⟩
  | .error (.failure diag), h =>
    simp only [finish, Except.ok.injEq, Prod.mk.injEq] at h
    exact Or.inr ⟨⟨diag, h.1.symm⟩, h.2.symm⟩
  | .error (.fault _), h => simp [finish] at h

/-- C16: whenever `serializeExecutable` or `serializeExternalExecutable`
returns, either it returns success and exactly one binary op has been added
through the builder, or it returns failure and the builder is as it was. -/
theorem serialize_builder (options : SerializationOptions) (variantOp : ExecutableVariantOp)
    (executableBuilder : OpBuilder) :
    (∀ result after,
      serializeExecutable options variantOp executableBuilder = .ok (result, after) →
        (result = .success ∧ ∃ op, after = executableBuilder ++ [op]) ∨
        ((∃ diag, result = .failure diag) ∧ after = executableBuilder)) ∧
    (∀ result after,
      serializeExternalExecutable options variantOp executableBuilder = .ok (result, after) →
        (result = .success ∧ ∃ op, after = executableBuilder ++ [op]) ∨
        ((∃ diag, result = .failure diag) ∧ after = executableBuilder)) := by
  have hexternal : ∀ result after,
      serializeExternalExecutable options variantOp executableBuilder = .ok (result, after) →
        (result = .success ∧ ∃ op, after = executableBuilder ++ [op]) ∨
        ((∃ diag, result = .failure diag) ∧ after = executableBuilder) :=
    fun _ _ h => finish_returned h
  refine ⟨fun result after h => ?_, hexternal⟩
  unfold serializeExecutable at h
  split_ifs at h
  · exact hexternal result after h
  · exact finish_returned h

/-! ## The order of the fields -/

theorem topLevelFields_order (s : ModuleLoopState)
    (stage : List (Option (List StageLocationDef))) (files : List SourceFileDef) :
    ((topLevelFields s stage files).map ExecutableDefField.name).Sublist contractOrder ∧
    FieldName.entryPoints ∈ (topLevelFields s stage files).map ExecutableDefField.name ∧
    FieldName.shaderModuleIndices ∈ (topLevelFields s stage files).map ExecutableDefField.name ∧
    FieldName.shaderModules ∈ (topLevelFields s stage files).map ExecutableDefField.name := by
  unfold topLevelFields
  split_ifs <;>
    simp only [List.map_append, List.map_cons, List.map_nil, ExecutableDefField.name,
      List.append_nil, List.cons_append, List.nil_append, List.singleton_append,
      contractOrder] <;>
    decide

/-- C20: after a successful serialization, on the generated path or on the
external path, the names of the top-level fields added to the container, in
the order they were added, are a subsequence of entry point names, subgroup
sizes, module indices, shader modules, source locations, stage locations,
source files; and entry point names, module indices and shader modules are
among them. -/
theorem serializeExecutable_field_order (options : SerializationOptions)
    (variantOp : ExecutableVariantOp) (executableBuilder after : OpBuilder)
    (hsuccess : serializeExecutable options variantOp executableBuilder
      = .ok (.success, after)) :
    ∃ data,
      after = executableBuilder ++
        [⟨variantOp.symName, variantOp.format, data, "application/x-flatbuffers"⟩] ∧
      (data.map ExecutableDefField.name).Sublist contractOrder ∧
      FieldName.entryPoints ∈ data.map ExecutableDefField.name ∧
      FieldName.shaderModuleIndices ∈ data.map ExecutableDefField.name ∧
      FieldName.shaderModules ∈ data.map ExecutableDefField.name := by
  cases hext : variantOp.isExternal with
  | true =>
    simp only [serializeExecutable, hext, if_true] at hsuccess
    obtain ⟨spvBinary, hafter⟩ := serializeExternalExecutable_success hsuccess
    refine ⟨_, hafter, ?_, ?_, ?_, ?_⟩ <;>
      simp only [List.map_cons, List.map_nil, ExecutableDefField.name, contractOrder] <;>
      decide
  | false =>
    obtain ⟨data, hdata, hafter⟩ := serializeExecutable_success hext hsuccess
    obtain ⟨ordinals, s, stage, -, -, -, rfl⟩ := buildExecutableDef_ok hdata
    exact ⟨_, hafter, topLevelFields_order s stage _⟩

/-- The fields of `twoEntries` at debug level 3 are all seven, in order. -/
theorem serializeExecutable_field_order_witness :
    ∃ data,
      [twoEntriesBinaryOp3] = [] ++
        [⟨twoEntries.symName, twoEntries.format, data, "application/x-flatbuffers"⟩] ∧
      (data.map ExecutableDefField.name).Sublist contractOrder ∧
      FieldName.entryPoints ∈ data.map ExecutableDefField.name ∧
      FieldName.shaderModuleIndices ∈ data.map ExecutableDefField.name ∧
      FieldName.shaderModules ∈ data.map ExecutableDefField.name :=
  serializeExecutable_field_order debugLevel3 twoEntries [] [twoEntriesBinaryOp3] rfl

/-! ## Source files -/

@[simp] theorem sourceFilesOf_topLevelFields (s : ModuleLoopState)
    (stage : List (Option (List StageLocationDef))) (files : List SourceFileDef) :
    sourceFilesOf (topLevelFields s stage files) = if files = [] then none else some files := by
  unfold topLevelFields
  split_ifs <;> simp_all [sourceFilesOf]

/-- Reversing, collecting, and reversing again gives the attachments that are
resource blobs in their original order. -/
theorem sourceFileRefs_eq_embeddedSourceFiles (sources : Option (List (String × SourceAttr))) :
    sourceFileRefs sources = embeddedSourceFiles sources := by
  cases sources with
  | none => rfl
  | some attachments =>
    simp only [sourceFileRefs, embeddedSourceFiles, List.filterMap_reverse, List.reverse_reverse]

/-- C14: after a successful serialization on the generated path, the source
files of the container are the embedded source attachments of the variant
that are resource blobs, as (file name, raw bytes), in the original order of
the attachments; the field is absent exactly when there is none. -/
theorem serializeExecutable_source_files (options : SerializationOptions)
    (variantOp : ExecutableVariantOp) (executableBuilder after : OpBuilder)
    (hext : variantOp.isExternal = false)
    (hsuccess : serializeExecutable options variantOp executableBuilder
      = .ok (.success, after)) :
    ∃ data,
      after = executableBuilder ++
        [⟨variantOp.symName, variantOp.format, data, "application/x-flatbuffers"⟩] ∧
      sourceFileRefs variantOp.sources = embeddedSourceFiles variantOp.sources ∧
      (sourceFilesOf data = none ↔ embeddedSourceFiles variantOp.sources = []) ∧
      (embeddedSourceFiles variantOp.sources ≠ [] →
        sourceFilesOf data = some (embeddedSourceFiles variantOp.sources)) := by
  obtain ⟨data, hdata, hafter⟩ := serializeExecutable_success hext hsuccess
  obtain ⟨ordinals, s, stage, -, -, -, rfl⟩ := buildExecutableDef_ok hdata
  refine ⟨_, hafter, sourceFileRefs_eq_embeddedSourceFiles _, ?_, ?_⟩
  · rw [sourceFilesOf_topLevelFields, sourceFileRefs_eq_embeddedSourceFiles]
    split_ifs with h <;> simp [h]
  · intro h
    rw [sourceFilesOf_topLevelFields, sourceFileRefs_eq_embeddedSourceFiles, if_neg h]

/-- The only resource blob among the sources of `twoEntries` is `a.mlir`. -/
theorem serializeExecutable_source_files_witness :
    ∃ data,
      [twoEntriesBinaryOp3] = [] ++
        [⟨twoEntries.symName, twoEntries.format, data, "application/x-flatbuffers"⟩] ∧
      sourceFileRefs twoEntries.sources = embeddedSourceFiles twoEntries.sources ∧
      (sourceFilesOf data = none ↔ embeddedSourceFiles twoEntries.sources = []) ∧
      (embeddedSourceFiles twoEntries.sources ≠ [] →
        sourceFilesOf data = some (embeddedSourceFiles twoEntries.sources)) :=
  serializeExecutable_source_files debugLevel3 twoEntries [] [twoEntriesBinaryOp3] rfl rfl

/-! ## Debug levels -/

theorem recordSourceLocation_congr {options other : SerializationOptions}
    (h1 : 1 ≤ options.debugLevel ↔ 1 ≤ other.debugLevel) (n ordinal : Nat) (loc : Location)
    (refs : List (Option FileLineLoc)) :
    recordSourceLocation options n ordinal loc refs
      = recordSourceLocation other n ordinal loc refs := by
  unfold recordSourceLocation
  by_cases h : 1 ≤ options.debugLevel
  · have h' := h1.mp h
    simp only [ge_iff_le, h, h', if_true]
  · have h' : ¬ 1 ≤ other.debugLevel := fun hle => h (h1.mpr hle)
    simp only [ge_iff_le, h, h', if_false]

theorem encodeModule_congr {options other : SerializationOptions}
    (h1 : 1 ≤ options.debugLevel ↔ 1 ≤ other.debugLevel) (ordinals : DenseMap) (n : Nat)
    (s : ModuleLoopState) (spvModuleOp : spirv.ModuleOp) :
    encodeModule options ordinals n s spvModuleOp
      = encodeModule other ordinals n s spvModuleOp := by
  unfold encodeModule
  simp only [recordSourceLocation_congr h1]

theorem spirvModuleOpsLoop_congr {options other : SerializationOptions}
    (h1 : 1 ≤ options.debugLevel ↔ 1 ≤ other.debugLevel) (ordinals : DenseMap) (n : Nat)
    (ms : List spirv.ModuleOp) :
    ∀ s, spirvModuleOpsLoop options ordinals n ms s
      = spirvModuleOpsLoop other ordinals n ms s := by
  induction ms with
  | nil => intro s; rfl
  | cons m rest ih =>
    intro s
    simp only [spirvModuleOpsLoop, encodeModule_congr h1, ih]

theorem stageLocations_congr {options other : SerializationOptions}
    (h3 : 3 ≤ options.debugLevel ↔ 3 ≤ other.debugLevel) (n : Nat)
    (exportOps : List ExecutableExportOp) :
    stageLocations options n exportOps = stageLocations other n exportOps := by
  unfold stageLocations
  by_cases h : 3 ≤ options.debugLevel
  · have h' := h3.mp h
    simp only [ge_iff_le, h, h', if_true]
  · have h' : ¬ 3 ≤ other.debugLevel := fun hle => h (h3.mpr hle)
    simp only [ge_iff_le, h, h', if_false]

/-- The result depends on the debug level only through the two thresholds
`debugLevel >= 1` and `debugLevel >= 3`. -/
theorem serializeExecutable_congr {options other : SerializationOptions}
    (h1 : 1 ≤ options.debugLevel ↔ 1 ≤ other.debugLevel)
    (h3 : 3 ≤ options.debugLevel ↔ 3 ≤ other.debugLevel)
    (variantOp : ExecutableVariantOp) (executableBuilder : OpBuilder) :
    serializeExecutable options variantOp executableBuilder
      = serializeExecutable other variantOp executableBuilder := by
  unfold serializeExecutable serializeExternalExecutable buildExecutableDef
  simp only [spirvModuleOpsLoop_congr h1, stageLocations_congr h3]

/-- C15: for every variant, `serializeExecutable` at debug level 2 gives the
same result (the same success, failure or fault, and the same builder
content) as at debug level 1, and at every debug level of 3 or more the same
result as at level 3. -/
theorem serializeExecutable_debug_levels (options : SerializationOptions)
    (variantOp : ExecutableVariantOp) (executableBuilder : OpBuilder) :
    serializeExecutable { options with debugLevel := 2 } variantOp executableBuilder
      = serializeExecutable { options with debugLevel := 1 } variantOp executableBuilder ∧
    ∀ k, serializeExecutable { options with debugLevel := 3 + k } variantOp executableBuilder
      = serializeExecutable { options with debugLevel := 3 } variantOp executableBuilder := by
  refine ⟨serializeExecutable_congr ?_ ?_ _ _, fun k => serializeExecutable_congr ?_ ?_ _ _⟩
  · simp
  · simp
  · simp only [Nat.one_le_ofNat, iff_true]; omega
  · simp

/-! ## The diagnostics of a failure -/

theorem entryPointOrdinalsLoop_explicit (exportOps : List ExecutableExportOp)
    (rest : List ExecutableExportOp) (hexplicit : ∀ e ∈ rest, e.ordinal ≠ none) :
    ∀ ordinals : DenseMap,
      ∃ result, entryPointOrdinalsLoop exportOps rest ordinals = .ok result := by
  induction rest with
  | nil => intro ordinals; exact ⟨ordinals, rfl⟩
  | cons exportOp rest ih =>
    intro ordinals
    have hrest : ∀ e ∈ rest, e.ordinal ≠ none :=
      fun e he => hexplicit e (List.mem_cons_of_mem _ he)
    cases hord : exportOp.ordinal with
    | none => exact absurd hord (hexplicit exportOp (List.mem_cons_self _ _))
    | some ordinal =>
      simp only [entryPointOrdinalsLoop, hord]
      exact ih hrest _

theorem storeAt_not_failure {α : Type} (vec : List α) (index : Nat) (value : α)
    (diag : String) : storeAt vec index value ≠ .error (.failure diag) := by
  unfold storeAt
  split_ifs <;> simp

theorem recordSourceLocation_not_failure (options : SerializationOptions) (n ordinal : Nat)
    (loc : Location) (refs : List (Option FileLineLoc)) (diag : String) :
    recordSourceLocation options n ordinal loc refs ≠ .error (.failure diag) := by
  unfold recordSourceLocation
  split_ifs
  · split
    · exact storeAt_not_failure _ _ _ _
    · simp
  · simp

theorem encodeModule_failure {options : SerializationOptions} {ordinals : DenseMap} {n : Nat}
    {s : ModuleLoopState} {spvModuleOp : spirv.ModuleOp} {diag : String}
    (h : encodeModule options ordinals n s spvModuleOp = .error (.failure diag)) :
    diag = "expected to contain exactly one entry point" ∨ diag = "failed to serialize" := by
  unfold encodeModule at h
  split at h
  · split at h
    · next e hat =>
      unfold DenseMap.at at hat
      split at hat
      · cases hat
      · cases hat; cases h
    · split at h
      · cases h; exact Or.inr rfl
      · split_ifs at h
        · cases h; exact Or.inr rfl
        · split at h
          · next e hstore => cases h; exact absurd hstore (storeAt_not_failure _ _ _ _)
          · split at h
            · next e hstore => cases h; exact absurd hstore (storeAt_not_failure _ _ _ _)
            · split at h
              · next e hstore => cases h; exact absurd hstore (storeAt_not_failure _ _ _ _)
              · split at h
                · next e hrecord =>
                  cases h
                  exact absurd hrecord (recordSourceLocation_not_failure _ _ _ _ _ _)
                · cases h
  · cases h; exact Or.inl rfl

theorem spirvModuleOpsLoop_failure {options : SerializationOptions} {ordinals : DenseMap}
    {n : Nat} {diag : String} (ms : List spirv.ModuleOp) :
    ∀ {s : ModuleLoopState},
      spirvModuleOpsLoop options ordinals n ms s = .error (.failure diag) →
      diag = "expected to contain exactly one entry point" ∨ diag = "failed to serialize" := by
  induction ms with
  | nil => intro s h; simp [spirvModuleOpsLoop] at h
  | cons m rest ih =>
    intro s h
    unfold spirvModuleOpsLoop at h
    split at h
    · next e hstep => cases h; exact encodeModule_failure hstep
    · exact ih h

theorem stageLocationsLoop_not_failure (n : Nat) (diag : String)
    (exportOps : List ExecutableExportOp) :
    ∀ refs, stageLocationsLoop n exportOps refs ≠ .error (.failure diag) := by
  induction exportOps with
  | nil => intro refs; simp [stageLocationsLoop]
  | cons exportOp rest ih =>
    intro refs
    unfold stageLocationsLoop
    split_ifs
    · exact ih _
    · split
      · simp
      · split
        · next e hstore =>
          intro h
          cases h
          exact absurd hstore (storeAt_not_failure _ _ _ _)
        · exact ih _

theorem stageLocations_not_failure (options : SerializationOptions) (n : Nat) (diag : String)
    (exportOps : List ExecutableExportOp) :
    stageLocations options n exportOps ≠ .error (.failure diag) := by
  unfold stageLocations
  split_ifs
  · exact stageLocationsLoop_not_failure _ _ _ _
  · simp

theorem finish_failure {variantOp : ExecutableVariantOp} {executableBuilder after : OpBuilder}
    {built : Except Stop ExecutableDef} {diag : String}
    (h : finish variantOp executableBuilder built = .ok (.failure diag, after)) :
    built = .error (.failure diag) := by
  match built, h with
  | .ok data, h => simp [finish] at h
  | .error (.failure diag'), h =>
    simp only [finish, Except.ok.injEq, Prod.mk.injEq, LogicalResult.failure.injEq] at h
    rw [h.1]
  | .error (.fault _), h => simp [finish] at h

theorem finish_fault {variantOp : ExecutableVariantOp} {executableBuilder : OpBuilder}
    {built : Except Stop ExecutableDef} {f : Fault}
    (h : finish variantOp executableBuilder built = .error f) :
    built = .error (.fault f) := by
  match built, h with
  | .ok data, h => simp [finish] at h
  | .error (.failure _), h => simp [finish] at h
  | .error (.fault f'), h =>
    simp only [finish, Except.error.injEq] at h
    rw [h]

/-- C11 (amended): for a variant on the generated path whose entry points all
carry explicit ordinals, whether or not two of them carry the same ordinal,
the ordinal loop accepts the variant; and when `serializeExecutable` returns
failure, the diagnostic is one of the module diagnostics: no `spirv.module`
op, a module without exactly one entry point, or a failed serialization of a
module. No failure reports a duplicate. -/
theorem serializeExecutable_explicit_ordinals (options : SerializationOptions)
    (variantOp : ExecutableVariantOp) (executableBuilder : OpBuilder)
    (hext : variantOp.isExternal = false)
    (hexplicit : ∀ e ∈ variantOp.exportOps, e.ordinal ≠ none) :
    (∃ ordinals, entryPointOrdinals variantOp = .ok ordinals) ∧
    ∀ diag after,
      serializeExecutable options variantOp executableBuilder = .ok (.failure diag, after) →
        diag = "should contain some spirv.module ops" ∨
        diag = "expected to contain exactly one entry point" ∨
        diag = "failed to serialize" := by
  obtain ⟨ordinals, hordinals⟩ :=
    entryPointOrdinalsLoop_explicit variantOp.exportOps variantOp.exportOps hexplicit []
  refine ⟨⟨ordinals, hordinals⟩, fun diag after h => ?_⟩
  simp only [serializeExecutable, hext] at h
  have hbuilt := finish_failure h
  unfold buildExecutableDef at hbuilt
  split_ifs at hbuilt
  · cases hbuilt; exact Or.inl rfl
  · have hordinals' : entryPointOrdinals variantOp = .ok ordinals := hordinals
    rw [hordinals'] at hbuilt
    simp only at hbuilt
    split at hbuilt
    · next e hloop => cases hbuilt; exact Or.inr (spirvModuleOpsLoop_failure _ hloop)
    · split at hbuilt
      · next e hstage =>
        cases hbuilt
        exact absurd hstage (stageLocations_not_failure _ _ _ _)
      · cases hbuilt

/-- The ordinal loop accepts `duplicateOrdinals`. -/
theorem serializeExecutable_explicit_ordinals_witness :
    (∃ ordinals, entryPointOrdinals duplicateOrdinals = .ok ordinals) ∧
    ∀ diag after,
      serializeExecutable debugLevel0 duplicateOrdinals [] = .ok (.failure diag, after) →
        diag = "should contain some spirv.module ops" ∨
        diag = "expected to contain exactly one entry point" ∨
        diag = "failed to serialize" :=
  serializeExecutable_explicit_ordinals debugLevel0 duplicateOrdinals [] rfl
    (by simp [duplicateOrdinals])

/-- C11 (as stated) fails: the two entry points of `duplicateOrdinals` are
distinct and both carry the explicit ordinal 0, and `serializeExecutable`
returns success: the second module overwrites slot 0 and slot 1 keeps its
defaults. -/
theorem serializeExecutable_duplicate_ordinals_counterexample :
    duplicateOrdinals.isExternal = false ∧
    (duplicateOrdinals.exportOps.map fun exportOp => (exportOp.symName, exportOp.ordinal))
      = [("a", some 0), ("b", some 0)] ∧
    serializeExecutable debugLevel0 duplicateOrdinals []
      = .ok (.success, [duplicateOrdinalsBinaryOp]) ∧
    ¬ ∃ diag after, serializeExecutable debugLevel0 duplicateOrdinals []
      = .ok (.failure diag, after) := by
  have hrun : serializeExecutable debugLevel0 duplicateOrdinals []
      = .ok (.success, [duplicateOrdinalsBinaryOp]) := rfl
  refine ⟨rfl, rfl, hrun, ?_⟩
  rintro ⟨diag, after, h⟩
  rw [hrun] at h
  cases h

/-! ## Slots that no module fills -/

/-- C13 (amended): `serializeExecutable` does not check that every slot was
filled. After a successful serialization on the generated path, a slot below
the entry count that is the ordinal of no entry point of the modules (for
example the slot of an exported entry point without a shader module) holds
the defaults: the empty name and the module index 0. -/
theorem serializeExecutable_unfilled_slots (options : SerializationOptions)
    (variantOp : ExecutableVariantOp) (executableBuilder after : OpBuilder)
    (ordinals : DenseMap)
    (hext : variantOp.isExternal = false)
    (hsuccess : serializeExecutable options variantOp executableBuilder
      = .ok (.success, after))
    (hordinals : entryPointOrdinals variantOp = .ok ordinals) :
    ∃ data names indices,
      after = executableBuilder ++
        [⟨variantOp.symName, variantOp.format, data, "application/x-flatbuffers"⟩] ∧
      entryPointsOf data = some names ∧
      shaderModuleIndicesOf data = some indices ∧
      ∀ slot, slot < DenseMap.size ordinals →
        (∀ m ∈ variantOp.spirvModuleOps, ∀ e ∈ m.entryPoints,
          ordinals.find e.fn ≠ some slot) →
        names[slot]? = some "" ∧ indices[slot]? = some 0 := by
  obtain ⟨data, hdata, hafter⟩ := serializeExecutable_success hext hsuccess
  obtain ⟨ordinals', s, stage, hordinals', hloop, -, rfl⟩ := buildExecutableDef_ok hdata
  rw [hordinals] at hordinals'
  cases hordinals'
  refine ⟨_, s.entryPointNames, s.shaderModuleIndices, hafter, by simp, by simp, ?_⟩
  intro slot hslot hunfilled
  obtain ⟨hnames, -, hindices⟩ := spirvModuleOpsLoop_frame _ hloop slot hunfilled
  rw [hnames, hindices]
  simp [ModuleLoopState.start, resize_nil, List.getElem?_replicate, hslot]

/-- Slot 1 of `exportWithoutModule` holds the defaults. -/
theorem serializeExecutable_unfilled_slots_witness :
    ∃ data names indices,
      [exportWithoutModuleBinaryOp] = [] ++
        [⟨exportWithoutModule.symName, exportWithoutModule.format, data,
          "application/x-flatbuffers"⟩] ∧
      entryPointsOf data = some names ∧
      shaderModuleIndicesOf data = some indices ∧
      ∀ slot, slot < DenseMap.size [("a", 0), ("b", 1)] →
        (∀ m ∈ exportWithoutModule.spirvModuleOps, ∀ e ∈ m.entryPoints,
          DenseMap.find [("a", 0), ("b", 1)] e.fn ≠ some slot) →
        names[slot]? = some "" ∧ indices[slot]? = some 0 :=
  serializeExecutable_unfilled_slots debugLevel0 exportWithoutModule []
    [exportWithoutModuleBinaryOp] [("a", 0), ("b", 1)] rfl rfl rfl

/-- C13 (as stated) fails: the exported entry point `b` of
`exportWithoutModule` has no shader module, slot 1 is filled by no module,
and `serializeExecutable` returns success with the empty name at slot 1. -/
theorem serializeExecutable_unfilled_slots_counterexample :
    exportWithoutModule.isExternal = false ∧
    entryPointOrdinals exportWithoutModule = .ok [("a", 0), ("b", 1)] ∧
    (∀ m ∈ exportWithoutModule.spirvModuleOps, ∀ e ∈ m.entryPoints,
      DenseMap.find [("a", 0), ("b", 1)] e.fn ≠ some 1) ∧
    serializeExecutable debugLevel0 exportWithoutModule []
      = .ok (.success, [exportWithoutModuleBinaryOp]) ∧
    entryPointsOf exportWithoutModuleBinaryOp.data = some ["a", ""] := by
  refine ⟨rfl, rfl, ?_, rfl, rfl⟩
  decide

/-! ## The order of the names on the external path -/

/-- C17 (amended): for an external variant whose entry points carry, in the
order of the variant, the explicit ordinals 0, 1, .., N-1, the entry point
names of the container are ordered by ordinal: the name at index `i` is the
name of the entry point whose ordinal is `i`. -/
theorem serializeExternalExecutable_names (options : SerializationOptions)
    (variantOp : ExecutableVariantOp) (executableBuilder after : OpBuilder)
    (hsuccess : serializeExternalExecutable options variantOp executableBuilder
      = .ok (.success, after))
    (hordered : ∀ (i : Nat) (exportOp : ExecutableExportOp),
      variantOp.exportOps[i]? = some exportOp → exportOp.ordinal = some i) :
    ∃ data names,
      after = executableBuilder ++
        [⟨variantOp.symName, variantOp.format, data, "application/x-flatbuffers"⟩] ∧
      entryPointsOf data = some names ∧
      names.length = variantOp.exportOps.length ∧
      ∀ exportOp ∈ variantOp.exportOps, ∀ i, exportOp.ordinal = some i →
        names[i]? = some exportOp.symName := by
  obtain ⟨spvBinary, hafter⟩ := serializeExternalExecutable_success hsuccess
  refine ⟨_, variantOp.exportOps.map fun (exportOp : ExecutableExportOp) => exportOp.symName,
    hafter, rfl, by simp, ?_⟩
  intro exportOp hmem i hi
  obtain ⟨j, hj⟩ := List.getElem?_of_mem hmem
  have hij : some j = some i := by rw [← hordered j exportOp hj, hi]
  cases hij
  simp [hj]

/-- The names of `externalThreeEntries`, whose ordinals follow its order. -/
theorem serializeExternalExecutable_names_witness :
    ∃ data names,
      [externalThreeEntriesBinaryOp] = [] ++
        [⟨externalThreeEntries.symName, externalThreeEntries.format, data,
          "application/x-flatbuffers"⟩] ∧
      entryPointsOf data = some names ∧
      names.length = externalThreeEntries.exportOps.length ∧
      ∀ exportOp ∈ externalThreeEntries.exportOps, ∀ i, exportOp.ordinal = some i →
        names[i]? = some exportOp.symName :=
  serializeExternalExecutable_names debugLevel0 externalThreeEntries []
    [externalThreeEntriesBinaryOp] rfl (by
      intro i exportOp h
      match i, h with
      | 0, h => cases h; rfl
      | 1, h => cases h; rfl
      | 2, h => cases h; rfl
      | _ + 3, h => simp [externalThreeEntries] at h)

/-- C17 (as stated) fails: the ordinals 1, 0 of `externalOutOfOrder` are a
permutation of 0..1, the names of the container are in the order of the
variant, and the name at index 0 is `a`, whose ordinal is 1, not `b`, whose
ordinal is 0. -/
theorem serializeExternalExecutable_names_counterexample :
    (externalOutOfOrder.exportOps.map fun exportOp => exportOp.ordinal) = [some 1, some 0] ∧
    List.Perm [1, 0] (List.range 2) ∧
    serializeExternalExecutable debugLevel0 externalOutOfOrder []
      = .ok (.success, [⟨"variant", "vulkan-spirv-fb",
          [.entryPoints ["a", "b"], .shaderModuleIndices [0, 0],
           .shaderModules [[119734787]]],
          "application/x-flatbuffers"⟩]) ∧
    ¬ ∀ exportOp ∈ externalOutOfOrder.exportOps, ∀ i, exportOp.ordinal = some i →
      (["a", "b"] : List String)[i]? = some exportOp.symName := by
  refine ⟨rfl, by decide, rfl, ?_⟩
  intro h
  have hb := h ⟨"b", some 0, none⟩ (by simp [externalOutOfOrder]) 0 rfl
  simp at hb

/-! ## Subgroup sizes of value zero -/

/-- C18 (amended): after a successful serialization on the generated path,
the subgroup sizes field is included only if some entry point declares a
subgroup size, whatever its value: whenever the field is present, the entry
point of some module declares a size; and, the ordinals being pairwise
distinct, the list has a non-zero element exactly when some declared size is
non-zero. -/
theorem serializeExecutable_subgroup_sizes_present (options : SerializationOptions)
    (variantOp : ExecutableVariantOp) (executableBuilder after : OpBuilder)
    (ordinals : DenseMap)
    (hext : variantOp.isExternal = false)
    (hsuccess : serializeExecutable options variantOp executableBuilder
      = .ok (.success, after))
    (hordinals : entryPointOrdinals variantOp = .ok ordinals) :
    ∃ data,
      after = executableBuilder ++
        [⟨variantOp.symName, variantOp.format, data, "application/x-flatbuffers"⟩] ∧
      ∀ sizes, subgroupSizesOf data = some sizes →
        (∃ m ∈ variantOp.spirvModuleOps, ∃ e ∈ m.entryPoints, ∃ size,
          DeclaresSubgroupSize e size) ∧
        (DistinctOrdinals ordinals variantOp.spirvModuleOps →
          ((∃ x ∈ sizes, x ≠ 0) ↔
            ∃ m ∈ variantOp.spirvModuleOps, ∃ e ∈ m.entryPoints, ∃ size,
              DeclaresSubgroupSize e size ∧ size ≠ 0)) := by
  obtain ⟨data, hdata, hafter⟩ := serializeExecutable_success hext hsuccess
  obtain ⟨ordinals', s, stage, hordinals', hloop, -, rfl⟩ := buildExecutableDef_ok hdata
  rw [hordinals] at hordinals'
  cases hordinals'
  have hany := spirvModuleOpsLoop_hasAnySubgroupSizes _ hloop
  simp only [ModuleLoopState.start, Bool.false_eq_true, false_or] at hany
  refine ⟨_, hafter, ?_⟩
  intro sizes hsizes
  rw [subgroupSizesOf_topLevelFields] at hsizes
  split_ifs at hsizes with hflag
  cases hsizes
  refine ⟨hany.mp hflag, fun hdistinct => ⟨?_, ?_⟩⟩
  · rintro ⟨x, hx, hxne⟩
    obtain ⟨slot, hslot⟩ := List.mem_iff_getElem?.mp hx
    by_cases hfilled : ∃ m ∈ variantOp.spirvModuleOps, ∃ e ∈ m.entryPoints,
        ordinals.find e.fn = some slot
    · obtain ⟨m, hm, e, he, hfind⟩ := hfilled
      obtain ⟨i, hi⟩ := List.getElem?_of_mem hm
      obtain ⟨ordinal, hfind', -, -, hvalue⟩ :=
        spirvModuleOpsLoop_slots _ hloop hdistinct i m hi e he
      rw [hfind] at hfind'
      cases hfind'
      rw [hslot] at hvalue
      cases hvalue
      by_cases hdeclared : ∃ size, DeclaresSubgroupSize e size
      · obtain ⟨size, hsize⟩ := hdeclared
        refine ⟨m, hm, e, he, size, hsize, ?_⟩
        rw [subgroupSizeOf_declared hsize] at hxne
        exact hxne
      · rw [subgroupSizeOf_undeclared (fun size hsize => hdeclared ⟨size, hsize⟩)] at hxne
        exact absurd rfl hxne
    · obtain ⟨-, hframe, -⟩ := spirvModuleOpsLoop_frame _ hloop slot (by
        intro m hm e he hfind
        exact hfilled ⟨m, hm, e, he, hfind⟩)
      rw [hslot] at hframe
      simp only [ModuleLoopState.start, resize_nil, List.getElem?_replicate] at hframe
      split_ifs at hframe
      cases hframe
      exact absurd rfl hxne
  · rintro ⟨m, hm, e, he, size, hsize, hne⟩
    obtain ⟨i, hi⟩ := List.getElem?_of_mem hm
    obtain ⟨ordinal, -, -, -, hslot⟩ := spirvModuleOpsLoop_slots _ hloop hdistinct i m hi e he
    rw [subgroupSizeOf_declared hsize] at hslot
    exact ⟨size, List.getElem?_mem hslot, hne⟩

/-- The declared sizes 64 and 0 of `mixedSubgroupSizes`, at the distinct
ordinals 0 and 1, give the list `[64, 0]`, which has a non-zero element. -/
theorem serializeExecutable_subgroup_sizes_present_witness :
    ∃ data,
      [mixedSubgroupSizesBinaryOp] = [] ++
        [⟨mixedSubgroupSizes.symName, mixedSubgroupSizes.format, data,
          "application/x-flatbuffers"⟩] ∧
      ∀ sizes, subgroupSizesOf data = some sizes →
        (∃ m ∈ mixedSubgroupSizes.spirvModuleOps, ∃ e ∈ m.entryPoints, ∃ size,
          DeclaresSubgroupSize e size) ∧
        ((∃ x ∈ sizes, x ≠ 0) ↔
          ∃ m ∈ mixedSubgroupSizes.spirvModuleOps, ∃ e ∈ m.entryPoints, ∃ size,
            DeclaresSubgroupSize e size ∧ size ≠ 0) := by
  obtain ⟨data, hop, hsizes⟩ :=
    serializeExecutable_subgroup_sizes_present debugLevel0 mixedSubgroupSizes []
      [mixedSubgroupSizesBinaryOp] [("a", 0), ("b", 1)] rfl rfl rfl
  exact ⟨data, hop, fun sizes h => ⟨(hsizes sizes h).1, (hsizes sizes h).2 (by decide)⟩⟩

/-- Why the ordinals have to be distinct: in `overwrittenSubgroupSize` the
entry points `a` and `b` share the ordinal 0, `a` declares the size 64 and
`b` declares none; the module of `b` overwrites slot 0 with 0, and the field
is present with the list `[0, 0]`. -/
theorem overwrittenSubgroupSize_sizes :
    serializeExecutable debugLevel0 overwrittenSubgroupSize []
      = .ok (.success, [⟨"variant", "vulkan-spirv-fb",
          [.entryPoints ["b", ""], .subgroupSizes [0, 0], .shaderModuleIndices [1, 0],
           .shaderModules [[119734787, 1], [119734787, 2]]],
          "application/x-flatbuffers"⟩]) :=
  rfl

/-- C18 (as stated) fails: the only declared subgroup size of
`zeroSubgroupSize` is 0, and the subgroup sizes field is present, holding
`[0]`: no element of the list is non-zero. -/
theorem serializeExecutable_subgroup_sizes_present_counterexample :
    zeroSubgroupSize.isExternal = false ∧
    serializeExecutable debugLevel0 zeroSubgroupSize []
      = .ok (.success, [⟨"variant", "vulkan-spirv-fb",
          [.entryPoints ["main"], .subgroupSizes [0], .shaderModuleIndices [0],
           .shaderModules [[119734787, 1]]],
          "application/x-flatbuffers"⟩]) ∧
    subgroupSizesOf [.entryPoints ["main"], .subgroupSizes [0], .shaderModuleIndices [0],
      .shaderModules [[119734787, 1]]] = some [0] ∧
    ¬ ∃ x ∈ ([0] : List Int), x ≠ 0 := by
  refine ⟨rfl, rfl, rfl, ?_⟩
  simp

/-! ## The entry count -/

theorem DenseMap.assign_of_not_mem (map : DenseMap) (key : String) (value : Nat)
    (h : key ∉ map.map Prod.fst) : DenseMap.assign map key value = map ++ [(key, value)] := by
  induction map with
  | nil => rfl
  | cons binding rest ih =>
    obtain ⟨k, v⟩ := binding
    simp only [List.map_cons, List.mem_cons, not_or] at h
    have hne : ¬ k = key := fun heq => h.1 heq.symm
    simp only [DenseMap.assign, hne, if_false, ih h.2, List.cons_append]

theorem DenseMap.find_of_mem (map : DenseMap) (key : String) (value : Nat)
    (hnodup : (map.map Prod.fst).Nodup) (hmem : (key, value) ∈ map) :
    DenseMap.find map key = some value := by
  induction map with
  | nil => simp at hmem
  | cons binding rest ih =>
    obtain ⟨k, v⟩ := binding
    simp only [List.map_cons, List.nodup_cons] at hnodup
    rcases List.mem_cons.mp hmem with heq | hrest
    · cases heq
      simp [DenseMap.find]
    · have hne : ¬ k = key := by
        intro heq
        apply hnodup.1
        rw [heq]
        exact List.mem_map.mpr ⟨(key, value), hrest, rfl⟩
      simp only [DenseMap.find, hne, if_false]
      exact ih hnodup.2 hrest

theorem DenseMap.mem_of_find (map : DenseMap) (key : String) (value : Nat)
    (h : DenseMap.find map key = some value) : ∃ k, (k, value) ∈ map := by
  induction map with
  | nil => simp [DenseMap.find] at h
  | cons binding rest ih =>
    obtain ⟨k, v⟩ := binding
    unfold DenseMap.find at h
    split_ifs at h
    · cases h
      exact ⟨k, List.mem_cons_self _ _⟩
    · obtain ⟨k', hk'⟩ := ih h
      exact ⟨k', List.mem_cons_of_mem _ hk'⟩

theorem entryPointOrdinalsLoop_cons_ok {exportOps rest : List ExecutableExportOp}
    {exportOp : ExecutableExportOp} {ordinals result : DenseMap}
    (h : entryPointOrdinalsLoop exportOps (exportOp :: rest) ordinals = .ok result) :
    entryPointOrdinalsLoop exportOps rest
      (DenseMap.assign ordinals exportOp.symName (resolvedOrdinal exportOp)) = .ok result := by
  unfold entryPointOrdinalsLoop at h
  unfold resolvedOrdinal
  split at h
  · next ordinal hord => simpa [hord] using h
  · next hord =>
    split_ifs at h
    simpa [hord] using h

/-- With distinct names, the map after the loop binds every export op, in
order, to its resolved ordinal. -/
theorem entryPointOrdinalsLoop_nodup (exportOps : List ExecutableExportOp)
    (rest : List ExecutableExportOp) :
    ∀ {ordinals result : DenseMap},
      (ordinals.map Prod.fst ++ rest.map fun e => e.symName).Nodup →
      entryPointOrdinalsLoop exportOps rest ordinals = .ok result →
      result = ordinals ++ rest.map fun e => (e.symName, resolvedOrdinal e) := by
  induction rest with
  | nil =>
    intro ordinals result _ h
    simp only [entryPointOrdinalsLoop, Except.ok.injEq] at h
    simp [h]
  | cons exportOp rest ih =>
    intro ordinals result hnodup h
    have hnew : exportOp.symName ∉ ordinals.map Prod.fst := by
      intro hmem
      have := List.nodup_append.mp hnodup
      exact this.2.2 hmem (by simp)
    have hstep := entryPointOrdinalsLoop_cons_ok h
    rw [DenseMap.assign_of_not_mem _ _ _ hnew] at hstep
    have := ih (by simpa using hnodup) hstep
    simpa using this

theorem entryPointOrdinals_nodup {variantOp : ExecutableVariantOp} {ordinals : DenseMap}
    (hnames : (variantOp.exportOps.map fun e => e.symName).Nodup)
    (hordinals : entryPointOrdinals variantOp = .ok ordinals) :
    ordinals = variantOp.exportOps.map fun e => (e.symName, resolvedOrdinal e) := by
  have := entryPointOrdinalsLoop_nodup variantOp.exportOps variantOp.exportOps
    (by simpa using hnames) hordinals
  simpa using this

/-! ## Writes within the vectors -/

theorem encodeModule_no_overrun (options : SerializationOptions) (ordinals : DenseMap)
    (n : Nat) (s : ModuleLoopState) (spvModuleOp : spirv.ModuleOp)
    (hbound : ∀ name ordinal, ordinals.find name = some ordinal → ordinal < n)
    (hindices : s.shaderModuleIndices.length = n)
    (hnames : s.entryPointNames.length = n)
    (hsizes : s.subgroupSizes.length = n) (index size : Nat) :
    encodeModule options ordinals n s spvModuleOp
      ≠ .error (.fault (.indexOutOfRange index size)) := by
  by_cases hsingle : spvModuleOp.entryPoints.length = 1
  · obtain ⟨spvEntryPoint, hentry⟩ := List.length_eq_one.mp hsingle
    cases hfind : ordinals.find spvEntryPoint.fn with
    | none => simp [encodeModule, hentry, DenseMap.at, hfind]
    | some ordinal =>
      have hrange : ∀ e ∈ spvModuleOp.entryPoints,
          ∃ ordinal, ordinals.find e.fn = some ordinal ∧ ordinal < n := by
        intro e he
        rw [hentry, List.mem_singleton] at he
        subst he
        exact ⟨ordinal, hfind, hbound _ _ hfind⟩
      rcases encodeModule_in_range options ordinals n s spvModuleOp hrange hindices hnames
        hsizes with ⟨diag, h⟩ | ⟨next, h⟩ <;> simp [h]
  · simp [encodeModule_not_single options ordinals n s spvModuleOp hsingle]

theorem spirvModuleOpsLoop_no_overrun (options : SerializationOptions) (ordinals : DenseMap)
    (n : Nat) (hbound : ∀ name ordinal, ordinals.find name = some ordinal → ordinal < n)
    (index size : Nat) (ms : List spirv.ModuleOp) :
    ∀ s : ModuleLoopState,
      s.shaderModuleIndices.length = n → s.entryPointNames.length = n →
      s.subgroupSizes.length = n →
      spirvModuleOpsLoop options ordinals n ms s
        ≠ .error (.fault (.indexOutOfRange index size)) := by
  induction ms with
  | nil => intro s _ _ _; simp [spirvModuleOpsLoop]
  | cons m rest ih =>
    intro s hindices hnames hsizes
    unfold spirvModuleOpsLoop
    split
    · next e hstep =>
      intro h
      cases h
      exact encodeModule_no_overrun options ordinals n s m hbound hindices hnames hsizes
        index size hstep
    · next next hnext =>
      obtain ⟨e, ordinal, spvBinary, recorded, -, -, -, -, -, -, -, -, hstate⟩ :=
        encodeModule_ok hnext
      exact ih next (by rw [hstate]; simpa using hindices) (by rw [hstate]; simpa using hnames)
        (by rw [hstate]; simpa using hsizes)

theorem stageLocationsLoop_no_overrun (n index size : Nat)
    (exportOps : List ExecutableExportOp)
    (hbound : ∀ e ∈ exportOps, ∀ ordinal, e.ordinal = some ordinal → ordinal < n) :
    ∀ refs, stageLocationsLoop n exportOps refs
      ≠ .error (.fault (.indexOutOfRange index size)) := by
  induction exportOps with
  | nil => intro refs; simp [stageLocationsLoop]
  | cons exportOp rest ih =>
    intro refs
    have hrest : ∀ e ∈ rest, ∀ ordinal, e.ordinal = some ordinal → ordinal < n :=
      fun e he => hbound e (List.mem_cons_of_mem _ he)
    unfold stageLocationsLoop
    split_ifs
    · exact ih hrest _
    · split
      · simp
      · next ordinal hord =>
        have hlt := hbound exportOp (List.mem_cons_self _ _) ordinal hord
        rw [storeAt_of_lt _ _ (by simpa using hlt)]
        exact ih hrest _

theorem DenseMap.keys_assign (map : DenseMap) (key : String) (value : Nat) :
    (DenseMap.assign map key value).map Prod.fst
      = if key ∈ map.map Prod.fst then map.map Prod.fst else map.map Prod.fst ++ [key] := by
  induction map with
  | nil => simp [DenseMap.assign]
  | cons binding rest ih =>
    obtain ⟨k, v⟩ := binding
    by_cases hk : k = key
    · subst hk
      simp [DenseMap.assign]
    · have hk' : ¬ key = k := fun h => hk h.symm
      simp only [DenseMap.assign, hk, if_false, List.map_cons, ih, List.mem_cons, hk',
        false_or]
      split_ifs <;> simp

/-- The keys of the map after the ordinal loop are distinct, and they are
the keys it started with and the names of the export ops it visited. -/
theorem entryPointOrdinalsLoop_keys (exportOps : List ExecutableExportOp)
    (rest : List ExecutableExportOp) :
    ∀ {ordinals result : DenseMap},
      (ordinals.map Prod.fst).Nodup →
      entryPointOrdinalsLoop exportOps rest ordinals = .ok result →
      (result.map Prod.fst).Nodup ∧
      ∀ name, name ∈ result.map Prod.fst ↔
        name ∈ ordinals.map Prod.fst ∨ name ∈ rest.map fun e => e.symName := by
  induction rest with
  | nil =>
    intro ordinals result hnodup h
    simp only [entryPointOrdinalsLoop, Except.ok.injEq] at h
    subst h
    exact ⟨hnodup, fun name => by simp⟩
  | cons exportOp rest ih =>
    intro ordinals result hnodup h
    have hstep := entryPointOrdinalsLoop_cons_ok h
    have hkeys := DenseMap.keys_assign ordinals exportOp.symName (resolvedOrdinal exportOp)
    have hnodup' : ((DenseMap.assign ordinals exportOp.symName
        (resolvedOrdinal exportOp)).map Prod.fst).Nodup := by
      rw [hkeys]
      split_ifs with hmem
      · exact hnodup
      · exact List.nodup_append.mpr ⟨hnodup, List.nodup_singleton _, by
          intro x hx hx'
          rw [List.mem_singleton] at hx'
          subst hx'
          exact hmem hx⟩
    obtain ⟨hres, hmemres⟩ := ih hnodup' hstep
    refine ⟨hres, fun name => ?_⟩
    rw [hmemres, hkeys]
    split_ifs with hmem
    · simp only [List.map_cons, List.mem_cons]
      constructor
      · rintro (h1 | h2)
        · exact Or.inl h1
        · exact Or.inr (Or.inr h2)
      · rintro (h1 | h2 | h3)
        · exact Or.inl h1
        · exact Or.inl (h2 ▸ hmem)
        · exact Or.inr h3
    · simp only [List.mem_append, List.mem_singleton, List.map_cons, List.mem_cons, or_assoc,
        List.not_mem_nil, false_or]

/-- The size of the map after the ordinal loop is the number of distinct
names among the export ops. -/
theorem entryPointOrdinals_size {variantOp : ExecutableVariantOp} {ordinals : DenseMap}
    (hordinals : entryPointOrdinals variantOp = .ok ordinals) :
    DenseMap.size ordinals = (variantOp.exportOps.map fun e => e.symName).dedup.length := by
  obtain ⟨hnodup, hmem⟩ := entryPointOrdinalsLoop_keys variantOp.exportOps
    variantOp.exportOps (by simp) hordinals
  have hperm : (ordinals.map Prod.fst).Perm
      (variantOp.exportOps.map fun e => e.symName).dedup := by
    apply (List.perm_ext_iff_of_nodup hnodup (List.nodup_dedup _)).mpr
    intro name
    rw [hmem, List.mem_dedup]
    simp
  have := hperm.length_eq
  simpa [DenseMap.size] using this

/-- The only fault of an iteration whose bound ordinals are within the
vectors is a failed lookup of the name of the entry point. -/
theorem encodeModule_fault (options : SerializationOptions) (ordinals : DenseMap)
    (n : Nat) (s : ModuleLoopState) (spvModuleOp : spirv.ModuleOp)
    (hbound : ∀ name ordinal, ordinals.find name = some ordinal → ordinal < n)
    (hindices : s.shaderModuleIndices.length = n)
    (hnames : s.entryPointNames.length = n)
    (hsizes : s.subgroupSizes.length = n) (fault : Fault)
    (h : encodeModule options ordinals n s spvModuleOp = .error (.fault fault)) :
    ∃ key, fault = .missingKey key := by
  by_cases hsingle : spvModuleOp.entryPoints.length = 1
  · obtain ⟨spvEntryPoint, hentry⟩ := List.length_eq_one.mp hsingle
    cases hfind : ordinals.find spvEntryPoint.fn with
    | none =>
      simp only [encodeModule, hentry, DenseMap.at, hfind, Except.error.injEq,
        Stop.fault.injEq] at h
      exact ⟨_, h.symm⟩
    | some ordinal =>
      have hrange : ∀ e ∈ spvModuleOp.entryPoints,
          ∃ ordinal, ordinals.find e.fn = some ordinal ∧ ordinal < n := by
        intro e he
        rw [hentry, List.mem_singleton] at he
        subst he
        exact ⟨ordinal, hfind, hbound _ _ hfind⟩
      rcases encodeModule_in_range options ordinals n s spvModuleOp hrange hindices hnames
        hsizes with ⟨diag, h'⟩ | ⟨next, h'⟩ <;> rw [h'] at h <;> cases h
  · rw [encodeModule_not_single options ordinals n s spvModuleOp hsingle] at h
    cases h

theorem spirvModuleOpsLoop_fault (options : SerializationOptions) (ordinals : DenseMap)
    (n : Nat) (hbound : ∀ name ordinal, ordinals.find name = some ordinal → ordinal < n)
    (fault : Fault) (ms : List spirv.ModuleOp) :
    ∀ s : ModuleLoopState,
      s.shaderModuleIndices.length = n → s.entryPointNames.length = n →
      s.subgroupSizes.length = n →
      spirvModuleOpsLoop options ordinals n ms s = .error (.fault fault) →
      ∃ key, fault = .missingKey key := by
  induction ms with
  | nil => intro s _ _ _ h; simp [spirvModuleOpsLoop] at h
  | cons m rest ih =>
    intro s hindices hnames hsizes h
    unfold spirvModuleOpsLoop at h
    split at h
    · next e hstep =>
      cases h
      exact encodeModule_fault options ordinals n s m hbound hindices hnames hsizes fault hstep
    · next next hnext =>
      obtain ⟨e, ordinal, spvBinary, recorded, -, -, -, -, -, -, -, -, hstate⟩ :=
        encodeModule_ok hnext
      exact ih next (by rw [hstate]; simpa using hindices) (by rw [hstate]; simpa using hnames)
        (by rw [hstate]; simpa using hsizes) h

theorem stageLocationsLoop_succeeds (n : Nat) (exportOps : List ExecutableExportOp)
    (hexplicit : ∀ e ∈ exportOps, ∃ ordinal, e.ordinal = some ordinal ∧ ordinal < n) :
    ∀ refs, ∃ final, stageLocationsLoop n exportOps refs = .ok final := by
  induction exportOps with
  | nil => intro refs; exact ⟨refs, rfl⟩
  | cons exportOp rest ih =>
    intro refs
    have hrest : ∀ e ∈ rest, ∃ ordinal, e.ordinal = some ordinal ∧ ordinal < n :=
      fun e he => hexplicit e (List.mem_cons_of_mem _ he)
    obtain ⟨ordinal, hord, hlt⟩ := hexplicit exportOp (List.mem_cons_self _ _)
    unfold stageLocationsLoop
    split_ifs
    · exact ih hrest _
    · simp only [hord]
      rw [storeAt_of_lt _ _ (by simpa using hlt)]
      exact ih hrest _

theorem stageLocations_succeeds (options : SerializationOptions) (n : Nat)
    (exportOps : List ExecutableExportOp)
    (hexplicit : ∀ e ∈ exportOps, ∃ ordinal, e.ordinal = some ordinal ∧ ordinal < n) :
    ∃ final, stageLocations options n exportOps = .ok final := by
  unfold stageLocations
  split_ifs
  · exact stageLocationsLoop_succeeds n exportOps hexplicit []
  · exact ⟨[], rfl⟩

/-- C12 (amended): for a variant on the generated path that the ordinal loop
accepts, the entry count that sizes the per-entry vectors is the size of
`entryPointOrdinals`, which is the number of distinct entry point names.
When the entry points have distinct names and resolved ordinals that form a
permutation of 0..N-1 (N the number of entry points), the entry count is N,
every resolved ordinal is below it, it is the largest resolved ordinal plus
one, and no write of the module loop at an ordinal is out of range (the only
fault of that loop is a failed lookup of a name). When moreover every entry
point carries an explicit ordinal, the writes of the stage locations are in
range too: the only fault the call can end in is a failed lookup of a
name. -/
theorem serializeExecutable_entry_count (options : SerializationOptions)
    (variantOp : ExecutableVariantOp) (executableBuilder : OpBuilder) (ordinals : DenseMap)
    (hext : variantOp.isExternal = false)
    (hordinals : entryPointOrdinals variantOp = .ok ordinals) :
    DenseMap.size ordinals = (variantOp.exportOps.map fun e => e.symName).dedup.length ∧
    ((variantOp.exportOps.map fun e => e.symName).Nodup →
      (variantOp.exportOps.map resolvedOrdinal).Perm (List.range variantOp.exportOps.length) →
      DenseMap.size ordinals = variantOp.exportOps.length ∧
      (∀ e ∈ variantOp.exportOps,
        ordinals.find e.symName = some (resolvedOrdinal e) ∧
        resolvedOrdinal e < DenseMap.size ordinals) ∧
      (variantOp.exportOps ≠ [] →
        ∃ e ∈ variantOp.exportOps, DenseMap.size ordinals = resolvedOrdinal e + 1) ∧
      (∀ fault,
        spirvModuleOpsLoop options ordinals (DenseMap.size ordinals) variantOp.spirvModuleOps
            (ModuleLoopState.start (DenseMap.size ordinals)) = .error (.fault fault) →
          ∃ key, fault = .missingKey key) ∧
      ((∀ e ∈ variantOp.exportOps, e.ordinal ≠ none) →
        ∀ fault, serializeExecutable options variantOp executableBuilder = .error fault →
          ∃ key, fault = .missingKey key)) := by
  refine ⟨entryPointOrdinals_size hordinals, fun hnames hperm => ?_⟩
  have hmap := entryPointOrdinals_nodup hnames hordinals
  have hsize : DenseMap.size ordinals = variantOp.exportOps.length := by
    rw [hmap]; simp [DenseMap.size]
  have hkeys : (ordinals.map Prod.fst).Nodup := by
    rw [hmap]; simpa [Function.comp_def] using hnames
  have hlt : ∀ e ∈ variantOp.exportOps, resolvedOrdinal e < DenseMap.size ordinals := by
    intro e he
    have : resolvedOrdinal e ∈ List.range variantOp.exportOps.length :=
      (hperm.mem_iff).mp (List.mem_map.mpr ⟨e, he, rfl⟩)
    rw [hsize]
    exact List.mem_range.mp this
  have hbound : ∀ name ordinal, ordinals.find name = some ordinal →
      ordinal < DenseMap.size ordinals := by
    intro name ordinal hfind
    obtain ⟨k, hk⟩ := DenseMap.mem_of_find _ _ _ hfind
    rw [hmap] at hk
    obtain ⟨e, he, heq⟩ := List.mem_map.mp hk
    cases heq
    exact hlt e he
  have hloopfault : ∀ fault,
      spirvModuleOpsLoop options ordinals (DenseMap.size ordinals) variantOp.spirvModuleOps
          (ModuleLoopState.start (DenseMap.size ordinals)) = .error (.fault fault) →
        ∃ key, fault = .missingKey key :=
    fun fault hloop => spirvModuleOpsLoop_fault options ordinals _ hbound fault _ _
      (by simp [ModuleLoopState.start]) (by simp [ModuleLoopState.start])
      (by simp [ModuleLoopState.start]) hloop
  refine ⟨hsize, ?_, ?_, hloopfault, ?_⟩
  · intro e he
    refine ⟨DenseMap.find_of_mem _ _ _ hkeys ?_, hlt e he⟩
    rw [hmap]
    exact List.mem_map.mpr ⟨e, he, rfl⟩
  · intro hne
    have hpos : 0 < variantOp.exportOps.length := List.length_pos.mpr hne
    have : variantOp.exportOps.length - 1 ∈ variantOp.exportOps.map resolvedOrdinal :=
      (hperm.mem_iff).mpr (List.mem_range.mpr (by omega))
    obtain ⟨e, he, heq⟩ := List.mem_map.mp this
    exact ⟨e, he, by rw [hsize, heq]; omega⟩
  · intro hexplicit fault h
    simp only [serializeExecutable, hext, Bool.false_eq_true, if_false] at h
    have hbuilt := finish_fault h
    unfold buildExecutableDef at hbuilt
    split_ifs at hbuilt
    · cases hbuilt
    rw [hordinals] at hbuilt
    simp only at hbuilt
    split at hbuilt
    · next e hloop =>
      cases hbuilt
      exact hloopfault fault hloop
    · split at hbuilt
      · next e hstage =>
        obtain ⟨final, hfinal⟩ := stageLocations_succeeds options (DenseMap.size ordinals)
          variantOp.exportOps (by
            intro e he
            cases hord : e.ordinal with
            | none => exact absurd hord (hexplicit e he)
            | some ordinal =>
              have := hlt e he
              exact ⟨ordinal, rfl, by simpa [resolvedOrdinal, hord] using this⟩)
        rw [hfinal] at hstage
        cases hstage
      · cases hbuilt

/-- The entry count of `twoEntries`, whose names are distinct and whose
explicit ordinals are 1 and 0, is 2. -/
theorem serializeExecutable_entry_count_witness :
    DenseMap.size [("a", 1), ("b", 0)]
      = (twoEntries.exportOps.map fun e => e.symName).dedup.length ∧
    DenseMap.size [("a", 1), ("b", 0)] = twoEntries.exportOps.length ∧
    (∀ e ∈ twoEntries.exportOps,
      DenseMap.find [("a", 1), ("b", 0)] e.symName = some (resolvedOrdinal e) ∧
      resolvedOrdinal e < DenseMap.size [("a", 1), ("b", 0)]) ∧
    (twoEntries.exportOps ≠ [] →
      ∃ e ∈ twoEntries.exportOps,
        DenseMap.size [("a", 1), ("b", 0)] = resolvedOrdinal e + 1) ∧
    (∀ fault,
      spirvModuleOpsLoop debugLevel3 [("a", 1), ("b", 0)] (DenseMap.size [("a", 1), ("b", 0)])
          twoEntries.spirvModuleOps
          (ModuleLoopState.start (DenseMap.size [("a", 1), ("b", 0)]))
          = .error (.fault fault) →
        ∃ key, fault = .missingKey key) ∧
    (∀ fault, serializeExecutable debugLevel3 twoEntries [] = .error fault →
      ∃ key, fault = .missingKey key) := by
  obtain ⟨hcount, hdense⟩ :=
    serializeExecutable_entry_count debugLevel3 twoEntries [] [("a", 1), ("b", 0)] rfl rfl
  obtain ⟨h1, h2, h3, h4, h5⟩ := hdense (by decide) (by decide)
  exact ⟨hcount, h1, h2, h3, h4, h5 (by simp [twoEntries])⟩

/-- C12 (as stated) fails: the ordinal loop accepts `sparseOrdinal`, whose
single entry point has the ordinal 5; the entry count is 1, not 5 + 1, the
ordinal 5 is not below it, and the write of the module index at slot 5 of a
vector of size 1 is out of range. -/
theorem serializeExecutable_entry_count_counterexample :
    sparseOrdinal.isExternal = false ∧
    entryPointOrdinals sparseOrdinal = .ok [("a", 5)] ∧
    DenseMap.size [("a", 5)] = 1 ∧
    (sparseOrdinal.exportOps.map resolvedOrdinal) = [5] ∧
    serializeExecutable debugLevel0 sparseOrdinal [] = .error (.indexOutOfRange 5 1) :=
  ⟨rfl, rfl, rfl, rfl, rfl⟩

/-! ## Source locations -/

theorem slotOf_nil {α : Type} (slot : Nat) : slotOf ([] : List (Option α)) slot = none := by
  simp [slotOf]

theorem slotOf_set_self {α : Type} (refs : List (Option α)) (slot : Nat) (x : Option α)
    (h : slot < refs.length) : slotOf (refs.set slot x) slot = x := by
  simp [slotOf, List.getElem?_set_self h]

theorem slotOf_set_ne {α : Type} (refs : List (Option α)) {index slot : Nat} (x : Option α)
    (h : index ≠ slot) : slotOf (refs.set index x) slot = slotOf refs slot := by
  simp [slotOf, List.getElem?_set_ne h]

theorem slotOf_resize {α : Type} (refs : List (Option α)) (n slot : Nat)
    (h : refs = [] ∨ refs.length = n) : slotOf (resize refs n none) slot = slotOf refs slot := by
  rcases h with rfl | h
  · rw [resize_nil, slotOf_nil]
    simp only [slotOf, List.getElem?_replicate]
    split_ifs <;> rfl
  · rw [resize_of_length _ _ _ h]

theorem getElem?_eq_slotOf {α : Type} (refs : List (Option α)) (slot : Nat)
    (h : slot < refs.length) : refs[slot]? = some (slotOf refs slot) := by
  simp [slotOf, List.getElem?_eq_getElem h]

/-- The two ways the source location block ends: a location was found at
debug level 1 or more and stored at the ordinal of the resized vector, or the
vector is left as it was. -/
theorem recordSourceLocation_cases {options : SerializationOptions} {n ordinal : Nat}
    {loc : Location} {refs recorded : List (Option FileLineLoc)}
    (h : recordSourceLocation options n ordinal loc refs = .ok recorded) :
    (1 ≤ options.debugLevel ∧ ordinal < n ∧ ∃ found, findFirstFileLoc loc = some found ∧
      recorded = (resize refs n none).set ordinal (some found)) ∨
    (¬ (1 ≤ options.debugLevel ∧ ∃ found, findFirstFileLoc loc = some found) ∧
      recorded = refs) := by
  unfold recordSourceLocation at h
  split_ifs at h with hlevel
  · split at h
    · next found hfound =>
      obtain ⟨hlt, hset⟩ := storeAt_ok h
      rw [length_resize] at hlt
      exact Or.inl ⟨hlevel, hlt, found, hfound, hset⟩
    · next hnone =>
      cases h
      refine Or.inr ⟨?_, rfl⟩
      rintro ⟨-, found, hfound⟩
      rw [hnone] at hfound
      cases hfound
  · cases h
    exact Or.inr ⟨fun hboth => hlevel hboth.1, rfl⟩

/-- The source location block changes no slot but the one of its ordinal. -/
theorem recordSourceLocation_slot_ne {options : SerializationOptions} {n ordinal : Nat}
    {loc : Location} {refs recorded : List (Option FileLineLoc)}
    (h : recordSourceLocation options n ordinal loc refs = .ok recorded)
    (hrefs : refs = [] ∨ refs.length = n) {slot : Nat} (hne : ordinal ≠ slot) :
    slotOf recorded slot = slotOf refs slot := by
  rcases recordSourceLocation_cases h with ⟨-, -, found, -, hset⟩ | ⟨-, hsame⟩
  · rw [hset, slotOf_set_ne _ _ hne, slotOf_resize _ _ _ hrefs]
  · rw [hsame]

/-- At debug level 1 or more, the slot of the ordinal holds the location
found for the entry point when there is one, and is left as it was when
there is none. -/
theorem recordSourceLocation_slot_self {options : SerializationOptions} {n ordinal : Nat}
    {loc : Location} {refs recorded : List (Option FileLineLoc)}
    (h : recordSourceLocation options n ordinal loc refs = .ok recorded)
    (hlevel : 1 ≤ options.debugLevel) (hempty : slotOf refs ordinal = none) :
    slotOf recorded ordinal = findFirstFileLoc loc := by
  rcases recordSourceLocation_cases h with ⟨-, hlt, found, hfound, hset⟩ | ⟨hnot, hsame⟩
  · rw [hset, slotOf_set_self _ _ _ (by simpa using hlt), hfound]
  · rw [hsame, hempty]
    cases hfound : findFirstFileLoc loc with
    | none => rfl
    | some found => exact absurd ⟨hlevel, found, hfound⟩ hnot

theorem recordSourceLocation_length {options : SerializationOptions} {n ordinal : Nat}
    {loc : Location} {refs recorded : List (Option FileLineLoc)}
    (h : recordSourceLocation options n ordinal loc refs = .ok recorded)
    (hrefs : refs = [] ∨ refs.length = n) : recorded = [] ∨ recorded.length = n := by
  rcases recordSourceLocation_cases h with ⟨-, -, found, -, hset⟩ | ⟨-, hsame⟩
  · exact Or.inr (by simp [hset])
  · rw [hsame]; exact hrefs

theorem recordSourceLocation_nonempty {options : SerializationOptions} {n ordinal : Nat}
    {loc : Location} {refs recorded : List (Option FileLineLoc)}
    (h : recordSourceLocation options n ordinal loc refs = .ok recorded) :
    recorded ≠ [] ↔
      refs ≠ [] ∨ (1 ≤ options.debugLevel ∧ ∃ found, findFirstFileLoc loc = some found) := by
  rcases recordSourceLocation_cases h with ⟨hlevel, hlt, found, hfound, hset⟩ | ⟨hnot, hsame⟩
  · have hne : recorded ≠ [] := by
      intro hnil
      have hlen : recorded.length = n := by simp [hset]
      rw [hnil] at hlen
      simp only [List.length_nil] at hlen
      omega
    exact ⟨fun _ => Or.inr ⟨hlevel, found, hfound⟩, fun _ => hne⟩
  · rw [hsame]
    exact ⟨Or.inl, fun hor => hor.resolve_right hnot⟩

theorem spirvModuleOpsLoop_sourceLocation_frame {options : SerializationOptions}
    {ordinals : DenseMap} {n : Nat} (ms : List spirv.ModuleOp) :
    ∀ {s final : ModuleLoopState}, spirvModuleOpsLoop options ordinals n ms s = .ok final →
      (s.sourceLocationRefs = [] ∨ s.sourceLocationRefs.length = n) →
      ∀ slot, (∀ m ∈ ms, ∀ e ∈ m.entryPoints, ordinals.find e.fn ≠ some slot) →
        slotOf final.sourceLocationRefs slot = slotOf s.sourceLocationRefs slot := by
  induction ms with
  | nil => intro s final h _ slot _; rw [spirvModuleOpsLoop_nil_ok h]
  | cons m rest ih =>
    intro s final h hrefs slot hslot
    obtain ⟨next, hnext, hrest⟩ := spirvModuleOpsLoop_cons_ok h
    obtain ⟨e, ordinal, spvBinary, recorded, hentry, hfind, -, -, -, -, -, hrecorded, hstate⟩ :=
      encodeModule_ok hnext
    have hne : ordinal ≠ slot := by
      intro heq
      exact hslot m (List.mem_cons_self _ _) e (by simp [hentry]) (by rw [hfind, heq])
    have hnextrefs : next.sourceLocationRefs = recorded := by rw [hstate]
    rw [ih hrest (by rw [hnextrefs]; exact recordSourceLocation_length hrecorded hrefs) slot
      (fun m' hm' => hslot m' (List.mem_cons_of_mem _ hm')), hnextrefs]
    exact recordSourceLocation_slot_ne hrecorded hrefs hne

theorem spirvModuleOpsLoop_sourceLocation_slots {options : SerializationOptions}
    {ordinals : DenseMap} {n : Nat} (hlevel : 1 ≤ options.debugLevel)
    (ms : List spirv.ModuleOp) :
    ∀ {s final : ModuleLoopState}, spirvModuleOpsLoop options ordinals n ms s = .ok final →
      (s.sourceLocationRefs = [] ∨ s.sourceLocationRefs.length = n) →
      DistinctOrdinals ordinals ms →
      (∀ m ∈ ms, ∀ e ∈ m.entryPoints, ∀ ordinal, ordinals.find e.fn = some ordinal →
        slotOf s.sourceLocationRefs ordinal = none) →
      ∀ m ∈ ms, ∀ e ∈ m.entryPoints,
        ∃ ordinal, ordinals.find e.fn = some ordinal ∧ ordinal < s.entryPointNames.length ∧
          slotOf final.sourceLocationRefs ordinal = findFirstFileLoc e.loc := by
  induction ms with
  | nil => intro s final _ _ _ _ m hm; simp at hm
  | cons m0 rest ih =>
    intro s final h hrefs hdistinct hempty m hm e he
    obtain ⟨next, hnext, hrest⟩ := spirvModuleOpsLoop_cons_ok h
    obtain ⟨e0, ordinal, spvBinary, recorded, hentry, hfind, -, -, -, hlt, -, hrecorded,
      hstate⟩ := encodeModule_ok hnext
    obtain ⟨hhead, htail⟩ := List.pairwise_cons.mp hdistinct
    have hnextrefs : next.sourceLocationRefs = recorded := by rw [hstate]
    have hnextlen : next.entryPointNames.length = s.entryPointNames.length := by
      rw [hstate]; simp
    have hnextP : next.sourceLocationRefs = [] ∨ next.sourceLocationRefs.length = n := by
      rw [hnextrefs]; exact recordSourceLocation_length hrecorded hrefs
    rcases List.mem_cons.mp hm with rfl | hmrest
    · rw [hentry, List.mem_singleton] at he
      subst he
      refine ⟨ordinal, hfind, hlt, ?_⟩
      rw [spirvModuleOpsLoop_sourceLocation_frame rest hrest hnextP ordinal (by
        intro m' hm' e' he' heq
        exact hhead m' hm' e (by simp [hentry]) e' he' (by rw [hfind, heq])), hnextrefs]
      exact recordSourceLocation_slot_self hrecorded hlevel
        (hempty m (List.mem_cons_self _ _) e (by simp [hentry]) ordinal hfind)
    · obtain ⟨o, hfo, hlto, hslot⟩ := ih hrest hnextP htail (by
        intro m' hm' e' he' o ho
        have hne : ordinal ≠ o := by
          intro heq
          exact hhead m' hm' e0 (by simp [hentry]) e' he' (by rw [hfind, ho, heq])
        rw [hnextrefs, recordSourceLocation_slot_ne hrecorded hrefs hne]
        exact hempty m' (List.mem_cons_of_mem _ hm') e' he' o ho) m hmrest e he
      exact ⟨o, hfo, by rw [← hnextlen]; exact hlto, hslot⟩

theorem spirvModuleOpsLoop_sourceLocation_nonempty {options : SerializationOptions}
    {ordinals : DenseMap} {n : Nat} (ms : List spirv.ModuleOp) :
    ∀ {s final : ModuleLoopState}, spirvModuleOpsLoop options ordinals n ms s = .ok final →
      (final.sourceLocationRefs ≠ [] ↔
        s.sourceLocationRefs ≠ [] ∨
          (1 ≤ options.debugLevel ∧
            ∃ m ∈ ms, ∃ e ∈ m.entryPoints, ∃ found, findFirstFileLoc e.loc = some found)) := by
  induction ms with
  | nil => intro s final h; rw [spirvModuleOpsLoop_nil_ok h]; simp
  | cons m rest ih =>
    intro s final h
    obtain ⟨next, hnext, hrest⟩ := spirvModuleOpsLoop_cons_ok h
    obtain ⟨e, ordinal, spvBinary, recorded, hentry, -, -, -, -, -, -, hrecorded, hstate⟩ :=
      encodeModule_ok hnext
    have hnextrefs : next.sourceLocationRefs = recorded := by rw [hstate]
    rw [ih hrest, hnextrefs, recordSourceLocation_nonempty hrecorded]
    constructor
    · rintro ((hs | ⟨hl, found, hfound⟩) | ⟨hl, m', hm', e', he', found, hfound⟩)
      · exact Or.inl hs
      · exact Or.inr ⟨hl, m, List.mem_cons_self _ _, e, by simp [hentry], found, hfound⟩
      · exact Or.inr ⟨hl, m', List.mem_cons_of_mem _ hm', e', he', found, hfound⟩
    · rintro (hs | ⟨hl, m', hm', e', he', found, hfound⟩)
      · exact Or.inl (Or.inl hs)
      · rcases List.mem_cons.mp hm' with rfl | hmrest
        · rw [hentry, List.mem_singleton] at he'
          subst he'
          exact Or.inl (Or.inr ⟨hl, found, hfound⟩)
        · exact Or.inr ⟨hl, m', hmrest, e', he', found, hfound⟩

/-- C19: after a successful serialization on the generated path at debug
level 1 or more, the entry points of the modules having pairwise distinct
ordinals, the source locations field is present exactly when the entry point
of some module resolves to a file location; and when it is present, the slot
at the ordinal of every entry point holds what that entry point resolves to:
its file name and line when it resolves, and the absent value when it does
not, never the location of another entry point. -/
theorem serializeExecutable_source_locations (options : SerializationOptions)
    (variantOp : ExecutableVariantOp) (executableBuilder after : OpBuilder)
    (ordinals : DenseMap)
    (hext : variantOp.isExternal = false)
    (hsuccess : serializeExecutable options variantOp executableBuilder
      = .ok (.success, after))
    (hordinals : entryPointOrdinals variantOp = .ok ordinals)
    (hlevel : 1 ≤ options.debugLevel)
    (hdistinct : DistinctOrdinals ordinals variantOp.spirvModuleOps) :
    ∃ data,
      after = executableBuilder ++
        [⟨variantOp.symName, variantOp.format, data, "application/x-flatbuffers"⟩] ∧
      ((∃ locs, sourceLocationsOf data = some locs) ↔
        ∃ m ∈ variantOp.spirvModuleOps, ∃ e ∈ m.entryPoints, ∃ found,
          findFirstFileLoc e.loc = some found) ∧
      ∀ locs, sourceLocationsOf data = some locs →
        ∀ m ∈ variantOp.spirvModuleOps, ∀ e ∈ m.entryPoints,
          ∃ ordinal, ordinals.find e.fn = some ordinal ∧
            locs[ordinal]? = some (findFirstFileLoc e.loc) := by
  obtain ⟨data, hdata, hafter⟩ := serializeExecutable_success hext hsuccess
  obtain ⟨ordinals', s, stage, hordinals', hloop, -, rfl⟩ := buildExecutableDef_ok hdata
  rw [hordinals] at hordinals'
  cases hordinals'
  have hstart : (ModuleLoopState.start (DenseMap.size ordinals)).sourceLocationRefs = [] := rfl
  have hpresent := spirvModuleOpsLoop_sourceLocation_nonempty _ hloop
  simp only [hstart, ne_eq, not_true_eq_false, false_or, hlevel, true_and] at hpresent
  have hlength := spirvModuleOpsLoop_sourceLocationRefs_length _ hloop (Or.inl hstart)
  refine ⟨_, hafter, ?_, ?_⟩
  · rw [sourceLocationsOf_topLevelFields, ← hpresent]
    by_cases hnil : s.sourceLocationRefs = [] <;> simp [hnil]
  · intro locs hlocs m hm e he
    rw [sourceLocationsOf_topLevelFields] at hlocs
    split_ifs at hlocs with hnil
    cases hlocs
    obtain ⟨ordinal, hfind, hlt, hslot⟩ :=
      spirvModuleOpsLoop_sourceLocation_slots hlevel _ hloop (Or.inl hstart) hdistinct
        (fun _ _ _ _ _ _ => by rw [hstart, slotOf_nil]) m hm e he
    refine ⟨ordinal, hfind, ?_⟩
    rw [← hslot]
    apply getElem?_eq_slotOf
    rw [hlength.resolve_left hnil]
    simpa [ModuleLoopState.start] using hlt

/-- The source locations of `twoEntries`: `a.mlir:9` at the ordinal 1 of `a`,
the absent value at the ordinal 0 of `b`. -/
theorem serializeExecutable_source_locations_witness :
    ∃ data,
      [twoEntriesBinaryOp3] = [] ++
        [⟨twoEntries.symName, twoEntries.format, data, "application/x-flatbuffers"⟩] ∧
      ((∃ locs, sourceLocationsOf data = some locs) ↔
        ∃ m ∈ twoEntries.spirvModuleOps, ∃ e ∈ m.entryPoints, ∃ found,
          findFirstFileLoc e.loc = some found) ∧
      ∀ locs, sourceLocationsOf data = some locs →
        ∀ m ∈ twoEntries.spirvModuleOps, ∀ e ∈ m.entryPoints,
          ∃ ordinal, DenseMap.find [("a", 1), ("b", 0)] e.fn = some ordinal ∧
            locs[ordinal]? = some (findFirstFileLoc e.loc) :=
  serializeExecutable_source_locations debugLevel3 twoEntries [] [twoEntriesBinaryOp3]
    [("a", 1), ("b", 0)] rfl rfl rfl (by decide) (by decide)

/-! ## Dense ordinals: the call succeeds and every access is in range -/

/-- With distinct names and ordinals that form a permutation of 0..N-1, the
map binds every export op to its ordinal, the entry count is N, and every
ordinal is below it. -/
theorem entryPointOrdinals_dense {variantOp : ExecutableVariantOp}
    (hnames : (variantOp.exportOps.map fun e => e.symName).Nodup)
    (hperm : (variantOp.exportOps.map fun e => e.ordinal).Perm
      ((List.range variantOp.exportOps.length).map some)) :
    ∃ ordinals, entryPointOrdinals variantOp = .ok ordinals ∧
      DenseMap.size ordinals = variantOp.exportOps.length ∧
      ∀ e ∈ variantOp.exportOps, ∃ ordinal, e.ordinal = some ordinal ∧
        ordinals.find e.symName = some ordinal ∧ ordinal < DenseMap.size ordinals := by
  have hexplicit : ∀ e ∈ variantOp.exportOps,
      ∃ ordinal, e.ordinal = some ordinal ∧ ordinal < variantOp.exportOps.length := by
    intro e he
    have hmem : e.ordinal ∈ (List.range variantOp.exportOps.length).map some :=
      (hperm.mem_iff).mp (List.mem_map.mpr ⟨e, he, rfl⟩)
    obtain ⟨ordinal, hrange, heq⟩ := List.mem_map.mp hmem
    exact ⟨ordinal, heq.symm, List.mem_range.mp hrange⟩
  obtain ⟨ordinals, hordinals⟩ :=
    entryPointOrdinalsLoop_explicit variantOp.exportOps variantOp.exportOps
      (fun e he => by
        obtain ⟨ordinal, hord, -⟩ := hexplicit e he
        rw [hord]
        simp) []
  have hmap := entryPointOrdinals_nodup hnames hordinals
  have hsize : DenseMap.size ordinals = variantOp.exportOps.length := by
    rw [hmap]; simp [DenseMap.size]
  have hkeys : (ordinals.map Prod.fst).Nodup := by
    rw [hmap]; simpa [Function.comp_def] using hnames
  refine ⟨ordinals, hordinals, hsize, ?_⟩
  intro e he
  obtain ⟨ordinal, hord, hlt⟩ := hexplicit e he
  refine ⟨ordinal, hord, DenseMap.find_of_mem _ _ _ hkeys ?_, by rw [hsize]; exact hlt⟩
  rw [hmap]
  exact List.mem_map.mpr ⟨e, he, by simp [resolvedOrdinal, hord]⟩

/-- An iteration of the module loop runs to its end when the module has one
entry point, bound to an ordinal within the vectors, and a non-empty
binary. -/
theorem encodeModule_succeeds (options : SerializationOptions) (ordinals : DenseMap)
    (n : Nat) (s : ModuleLoopState) (spvModuleOp : spirv.ModuleOp)
    (spvEntryPoint : spirv.EntryPointOp) (ordinal : Nat) (spvBinary : List Nat)
    (hentry : spvModuleOp.entryPoints = [spvEntryPoint])
    (hfind : ordinals.find spvEntryPoint.fn = some ordinal) (hlt : ordinal < n)
    (hserialized : spvModuleOp.serialized = some spvBinary) (hnonempty : spvBinary ≠ [])
    (hindices : s.shaderModuleIndices.length = n)
    (hnames : s.entryPointNames.length = n)
    (hsizes : s.subgroupSizes.length = n) :
    ∃ next, encodeModule options ordinals n s spvModuleOp = .ok next ∧
      next.shaderModuleIndices.length = n ∧ next.entryPointNames.length = n ∧
      next.subgroupSizes.length = n := by
  obtain ⟨recorded, hrecorded⟩ := recordSourceLocation_of_lt options spvEntryPoint.loc
    s.sourceLocationRefs hlt
  have hempty : spvBinary.isEmpty = false := by
    cases spvBinary with
    | nil => exact absurd rfl hnonempty
    | cons _ _ => rfl
  refine
    ⟨{ shaderModuleRefs := s.shaderModuleRefs ++ [spvBinary]
       entryPointNames := s.entryPointNames.set ordinal spvEntryPoint.fn
       subgroupSizes := s.subgroupSizes.set ordinal (subgroupSizeOf spvEntryPoint.abi).1
       shaderModuleIndices := s.shaderModuleIndices.set ordinal s.shaderModuleRefs.length
       sourceLocationRefs := recorded
       hasAnySubgroupSizes :=
         s.hasAnySubgroupSizes || (subgroupSizeOf spvEntryPoint.abi).2 }, ?_,
      by simpa using hindices, by simpa using hnames, by simpa using hsizes⟩
  simp only [encodeModule, hentry, DenseMap.at, hfind, hserialized, hempty]
  rw [storeAt_of_lt _ _ (by omega), storeAt_of_lt _ _ (by omega),
    storeAt_of_lt _ _ (by omega), hrecorded]
  simp

theorem spirvModuleOpsLoop_succeeds (options : SerializationOptions) (ordinals : DenseMap)
    (n : Nat) (ms : List spirv.ModuleOp)
    (hentry : ∀ m ∈ ms, ∃ e, m.entryPoints = [e] ∧
      ∃ ordinal, ordinals.find e.fn = some ordinal ∧ ordinal < n)
    (hblob : ∀ m ∈ ms, ∃ blob, m.serialized = some blob ∧ blob ≠ []) :
    ∀ s : ModuleLoopState,
      s.shaderModuleIndices.length = n → s.entryPointNames.length = n →
      s.subgroupSizes.length = n →
      ∃ final, spirvModuleOpsLoop options ordinals n ms s = .ok final := by
  induction ms with
  | nil => intro s _ _ _; exact ⟨s, rfl⟩
  | cons m rest ih =>
    intro s hindices hnames hsizes
    obtain ⟨e, he, ordinal, hfind, hlt⟩ := hentry m (List.mem_cons_self _ _)
    obtain ⟨blob, hserialized, hnonempty⟩ := hblob m (List.mem_cons_self _ _)
    obtain ⟨next, hnext, h1, h2, h3⟩ := encodeModule_succeeds options ordinals n s m e ordinal
      blob he hfind hlt hserialized hnonempty hindices hnames hsizes
    obtain ⟨final, hfinal⟩ := ih (fun m' hm' => hentry m' (List.mem_cons_of_mem _ hm'))
      (fun m' hm' => hblob m' (List.mem_cons_of_mem _ hm')) next h1 h2 h3
    exact ⟨final, by simp only [spirvModuleOpsLoop, hnext, hfinal]⟩

/-- C21: for a variant that is not external, with at least one shader
module, whose entry points (of distinct names, as symbols of a variant are)
all carry explicit ordinals that form a permutation of 0..N-1, where every
module has exactly one entry point, named as one of the entry points of the
variant, and the backend gives a non-empty blob for every module:
`serializeExecutable` succeeds at every debug level and creates one binary
op. No access is out of range: the call does not end in a fault, the lookup
of the name of every module entry point finds an ordinal below the entry
count (the size of the names, subgroup sizes, module indices and source
locations vectors), and the ordinal of every export op, at which the stage
locations are written, is below it too. -/
theorem serializeExecutable_dense_ordinals (options : SerializationOptions)
    (variantOp : ExecutableVariantOp) (executableBuilder : OpBuilder)
    (hext : variantOp.isExternal = false)
    (hmodules : variantOp.spirvModuleOps ≠ [])
    (hnames : (variantOp.exportOps.map fun e => e.symName).Nodup)
    (hperm : (variantOp.exportOps.map fun e => e.ordinal).Perm
      ((List.range variantOp.exportOps.length).map some))
    (hentry : ∀ m ∈ variantOp.spirvModuleOps, ∃ e, m.entryPoints = [e] ∧
      e.fn ∈ variantOp.exportOps.map fun exportOp => exportOp.symName)
    (hblob : ∀ m ∈ variantOp.spirvModuleOps, ∃ blob, m.serialized = some blob ∧ blob ≠ []) :
    ∃ data ordinals,
      serializeExecutable options variantOp executableBuilder
        = .ok (.success, executableBuilder ++
            [⟨variantOp.symName, variantOp.format, data, "application/x-flatbuffers"⟩]) ∧
      (∀ fault, serializeExecutable options variantOp executableBuilder ≠ .error fault) ∧
      entryPointOrdinals variantOp = .ok ordinals ∧
      DenseMap.size ordinals = variantOp.exportOps.length ∧
      (∀ m ∈ variantOp.spirvModuleOps, ∀ e ∈ m.entryPoints,
        ∃ ordinal, ordinals.find e.fn = some ordinal ∧ ordinal < DenseMap.size ordinals) ∧
      (∀ e ∈ variantOp.exportOps,
        ∃ ordinal, e.ordinal = some ordinal ∧ ordinal < DenseMap.size ordinals) := by
  obtain ⟨ordinals, hordinals, hsize, hdense⟩ := entryPointOrdinals_dense hnames hperm
  have hlookup : ∀ m ∈ variantOp.spirvModuleOps, ∃ e, m.entryPoints = [e] ∧
      ∃ ordinal, ordinals.find e.fn = some ordinal ∧ ordinal < DenseMap.size ordinals := by
    intro m hm
    obtain ⟨e, he, hmem⟩ := hentry m hm
    obtain ⟨exportOp, hexport, hname⟩ := List.mem_map.mp hmem
    obtain ⟨ordinal, -, hfind, hlt⟩ := hdense exportOp hexport
    exact ⟨e, he, ordinal, by rw [← hname]; exact hfind, hlt⟩
  have hexplicit : ∀ e ∈ variantOp.exportOps,
      ∃ ordinal, e.ordinal = some ordinal ∧ ordinal < DenseMap.size ordinals := by
    intro e he
    obtain ⟨ordinal, hord, -, hlt⟩ := hdense e he
    exact ⟨ordinal, hord, hlt⟩
  obtain ⟨s, hloop⟩ := spirvModuleOpsLoop_succeeds options ordinals (DenseMap.size ordinals)
    variantOp.spirvModuleOps hlookup hblob (ModuleLoopState.start (DenseMap.size ordinals))
    (by simp [ModuleLoopState.start]) (by simp [ModuleLoopState.start])
    (by simp [ModuleLoopState.start])
  obtain ⟨stage, hstage⟩ := stageLocations_succeeds options (DenseMap.size ordinals)
    variantOp.exportOps hexplicit
  have hne : variantOp.spirvModuleOps.isEmpty = false := by
    cases hm : variantOp.spirvModuleOps with
    | nil => exact absurd hm hmodules
    | cons _ _ => rfl
  have hrun : serializeExecutable options variantOp executableBuilder
      = .ok (.success, executableBuilder ++
          [⟨variantOp.symName, variantOp.format,
            topLevelFields s stage (sourceFileRefs variantOp.sources),
            "application/x-flatbuffers"⟩]) := by
    simp [serializeExecutable, hext, buildExecutableDef, hne, hordinals, hloop, hstage, finish]
  refine ⟨_, ordinals, hrun, ?_, hordinals, hsize, ?_, hexplicit⟩
  · intro fault hfault
    rw [hrun] at hfault
    cases hfault
  · intro m hm e he
    obtain ⟨e', he', ordinal, hfind, hlt⟩ := hlookup m hm
    rw [he', List.mem_singleton] at he
    subst he
    exact ⟨ordinal, hfind, hlt⟩

/-- The variant `twoEntries`, whose ordinals are 1 and 0, serializes at debug
level 3. -/
theorem serializeExecutable_dense_ordinals_witness :
    ∃ data ordinals,
      serializeExecutable debugLevel3 twoEntries []
        = .ok (.success, [] ++
            [⟨twoEntries.symName, twoEntries.format, data, "application/x-flatbuffers"⟩]) ∧
      (∀ fault, serializeExecutable debugLevel3 twoEntries [] ≠ .error fault) ∧
      entryPointOrdinals twoEntries = .ok ordinals ∧
      DenseMap.size ordinals = twoEntries.exportOps.length ∧
      (∀ m ∈ twoEntries.spirvModuleOps, ∀ e ∈ m.entryPoints,
        ∃ ordinal, ordinals.find e.fn = some ordinal ∧ ordinal < DenseMap.size ordinals) ∧
      (∀ e ∈ twoEntries.exportOps,
        ∃ ordinal, e.ordinal = some ordinal ∧ ordinal < DenseMap.size ordinals) :=
  serializeExecutable_dense_ordinals debugLevel3 twoEntries []
    rfl (by simp [twoEntries]) (by decide) (by decide)
    (by
      intro m hm
      simp only [twoEntries, List.mem_cons, List.mem_singleton, List.not_mem_nil,
        or_false] at hm
      rcases hm with rfl | rfl
      · exact ⟨_, rfl, by decide⟩
      · exact ⟨_, rfl, by decide⟩)
    (by
      intro m hm
      simp only [twoEntries, List.mem_cons, List.mem_singleton, List.not_mem_nil,
        or_false] at hm
      rcases hm with rfl | rfl
      · exact ⟨_, rfl, by simp⟩
      · exact ⟨_, rfl, by simp⟩)

end VulkanSPIRV
